import Mathlib

/-!
# OpenRTX voice codec pipeline: `openrtx/src/core/audio_codec.c`

A shallow embedding of the module's static state and of its functions, and the
properties of the frame queue and of the session life cycle proved on it.

Modelling conventions.

* The file-scope variables of the C unit are the fields of `Codec`.  `uint8_t`
  objects are natural numbers, every store into one goes through `u8`
  (reduction modulo 256), so a wrap-around is visible in the model.
* Calls into pthread are recorded, in program order, in the ghost field
  `trace`.  Locking and unlocking of `mutex` is not recorded: a critical
  section is one atomic step of the model.
* A call that reaches `pthread_cond_wait` with its wait condition true does not
  return in the state it was made in: the model reports `Ret.suspended` and
  records the wait.  Its later completion is the same call made in the later
  state.
* `pthread_join` waits for the worker thread to finish.  What the worker still
  does while it is being joined is an argument of `stopThread`.
* The path oracle `audioPath_getStatus`, the constant `PATH_OPEN` and the
  CODEC2 decoder live outside this unit; they are parameters.
* The build switch `PLATFORM_MD3x0` is a Boolean argument of the decode loop;
  `Build` collects the platform switches for the worker functions.  The thread
  attributes set under `_MIOSIX` (stack size, priority) do not touch the state
  of the unit and are left out.
* A worker function (`encodeFunc`, `decodeFunc`) runs on a script of passes:
  what the path oracle and the stream layer present to each pass through its
  loop.  The run reports the shared state it leaves, its calls into the stream
  layer, the DSP library and CODEC2, and how it ended; `WorkerEnd.inLoop` means
  the script is used up with the worker still in its loop.  Steps of other
  threads between two passes are not part of a run.
-/

namespace AudioCodec

/-- Queue capacity, `#define BUF_SIZE 4`. -/
def BUF_SIZE : Nat := 4

/-- Store of an integer value into a `uint8_t` object. -/
def u8 (n : Nat) : Nat := n % 256

/-- Store of an integer value into an `int16_t` object (`stream_sample_t`). -/
def i16 (x : Int) : Int := (x + 32768) % 65536 - 32768

/-- The type `pathId` of `audio_path.h`. -/
abbrev PathId := Int

/-- One compressed voice frame: the 8 bytes held in one `uint64_t` slot. -/
abbrev Frame := Nat

/-- The `errno.h` value of `EPERM`. -/
def EPERM : Int := 1

/-- The `errno.h` value of `EAGAIN`. -/
def EAGAIN : Int := 11

/-- Condition variables named in the unit.  `wakeup_cond` is the one declared at
file scope; `not_empty` is the name used by `codec_pushFrame` at line 209. -/
inductive CondVar
  | wakeup_cond
  | not_empty
  deriving DecidableEq, Repr

/-- The two thread entry points handed to `startThread`. -/
inductive WorkerFunc
  | encodeFunc
  | decodeFunc
  deriving DecidableEq, Repr

/-- Calls into pthread made by the unit. -/
inductive Effect
  | mutex_init
  | cond_init (c : CondVar)
  | mutex_destroy
  | cond_destroy (c : CondVar)
  | cond_wait (c : CondVar)
  | cond_signal (c : CondVar)
  | create (func : WorkerFunc) (arg : PathId)
  | join
  deriving DecidableEq, Repr

/-- The file-scope state of `audio_codec.c`, with the ghost `trace` of pthread
calls (oldest first). -/
structure Codec where
  audioPath   : PathId
  initCnt     : Nat
  running     : Bool
  reqStop     : Bool
  readPos     : Nat
  writePos    : Nat
  numElements : Nat
  dataBuffer  : List Frame
  trace       : List Effect
  deriving DecidableEq, Repr

/-- The state at program load: zero-initialised statics, no pthread call made. -/
def Codec.boot : Codec :=
  { audioPath := 0, initCnt := 0, running := false, reqStop := false,
    readPos := 0, writePos := 0, numElements := 0,
    dataBuffer := List.replicate BUF_SIZE 0, trace := [] }

/-- Record one pthread call. -/
def Codec.emit (s : Codec) (e : Effect) : Codec :=
  { s with trace := s.trace ++ [e] }

/-- The path oracle of `audio_path.h`, as seen during one call. -/
structure Env where
  audioPath_getStatus : PathId → Nat
  PATH_OPEN           : Nat

/-- What a queue call reports: an `int` return code, or no return yet because
the caller sleeps in `pthread_cond_wait`. -/
inductive Ret
  | code (rc : Int)
  | suspended
  deriving DecidableEq, Repr

/-- The critical section of `encodeFunc` (lines 267-284): the worker enqueues
`frame`, erasing the oldest frame when the buffer is full. -/
def encodeFunc_write (s : Codec) (frame : Frame) : Codec :=
  let s1 := if s.numElements ≥ BUF_SIZE
            then { s with readPos := u8 ((s.readPos + 1) % BUF_SIZE) } else s
  let s2 := { s1 with dataBuffer := s1.dataBuffer.set s1.writePos frame }
  let s3 := { s2 with writePos := u8 ((s2.writePos + 1) % BUF_SIZE) }
  let s4 := if s3.numElements = 0 then s3.emit (.cond_signal .wakeup_cond) else s3
  if s4.numElements < BUF_SIZE then { s4 with numElements := u8 (s4.numElements + 1) } else s4

/-- The critical section of `decodeFunc` (lines 326-342): the worker tries to
dequeue one frame.  Returns the state, `frame` and `newData`. -/
def decodeFunc_read (s : Codec) : Codec × Frame × Bool :=
  if s.numElements ≠ 0 then
    let frame := s.dataBuffer.getD s.readPos 0
    let s1 := { s with readPos := u8 ((s.readPos + 1) % BUF_SIZE) }
    let s2 := if s1.numElements ≥ BUF_SIZE then s1.emit (.cond_signal .wakeup_cond) else s1
    let s3 := { s2 with numElements := u8 (s2.numElements + 255) }
    (s3, frame, true)
  else
    (s, 0, false)

/-- What the worker thread may still do to the shared state before it exits. -/
inductive WorkerOp
  | write (frame : Frame)
  | read
  | startFailed
  deriving DecidableEq, Repr

/-- Effect of one worker action on the shared state.  `startFailed` is the early
return of lines 230-234 and 305-309. -/
def WorkerOp.apply (s : Codec) : WorkerOp → Codec
  | .write frame => encodeFunc_write s frame
  | .read        => (decodeFunc_read s).1
  | .startFailed => { s with running := false }

/-- The function `startThread` (lines 371-395). -/
def startThread (s : Codec) (func : WorkerFunc) : Codec :=
  let s1 := { s with readPos := 0, writePos := 0, numElements := 0, reqStop := false }
  s1.emit (.create func s1.audioPath)

/-- The function `stopThread` (lines 397-402).  `residual` is what the worker
does between the store to `reqStop` and its exit. -/
def stopThread (s : Codec) (residual : List WorkerOp) : Codec :=
  let s1 := { s with reqStop := true }
  let s2 := residual.foldl WorkerOp.apply s1
  let s3 := s2.emit .join
  { s3 with running := false }

/-- The function `codec_init` (lines 62-84). -/
def codec_init (s : Codec) : Codec :=
  if s.initCnt > 0 then
    { s with initCnt := u8 (s.initCnt + 1) }
  else
    let s1 := { s with initCnt := 1 }
    let s2 := { s1 with running := false, readPos := 0, writePos := 0, numElements := 0,
                        dataBuffer := List.replicate BUF_SIZE 0 }
    (s2.emit .mutex_init).emit (.cond_init .wakeup_cond)

/-- The function `codec_terminate` (lines 86-97). -/
def codec_terminate (s : Codec) (residual : List WorkerOp) : Codec :=
  let s1 := { s with initCnt := u8 (s.initCnt + 255) }
  if s1.initCnt > 0 then s1
  else
    let s2 := if s1.running then stopThread s1 residual else s1
    (s2.emit .mutex_destroy).emit (.cond_destroy .wakeup_cond)

/-- The function `codec_startEncode` (lines 99-118). -/
def codec_startEncode (env : Env) (s : Codec) (path : PathId)
    (residual : List WorkerOp) : Codec × Bool :=
  if env.audioPath_getStatus path ≠ env.PATH_OPEN then (s, false)
  else if s.running then
    if env.audioPath_getStatus s.audioPath = env.PATH_OPEN then (s, false)
    else
      let s1 := stopThread s residual
      let s2 := { s1 with running := true, audioPath := path }
      (startThread s2 .encodeFunc, true)
  else
    let s2 := { s with running := true, audioPath := path }
    (startThread s2 .encodeFunc, true)

/-- The function `codec_startDecode` (lines 120-139). -/
def codec_startDecode (env : Env) (s : Codec) (path : PathId)
    (residual : List WorkerOp) : Codec × Bool :=
  if env.audioPath_getStatus path ≠ env.PATH_OPEN then (s, false)
  else if s.running then
    if env.audioPath_getStatus s.audioPath = env.PATH_OPEN then (s, false)
    else
      let s1 := stopThread s residual
      let s2 := { s1 with running := true, audioPath := path }
      (startThread s2 .decodeFunc, true)
  else
    let s2 := { s with running := true, audioPath := path }
    (startThread s2 .decodeFunc, true)

/-- The function `codec_stop` (lines 141-150). -/
def codec_stop (s : Codec) (path : PathId) (residual : List WorkerOp) : Codec :=
  if s.running = false then s
  else if s.audioPath ≠ path then s
  else stopThread s residual

/-- The function `codec_popFrame` (lines 152-180).  `frame` is the content of the
caller's buffer before the call; the result holds its content after the call. -/
def codec_popFrame (s : Codec) (frame : Frame) (blocking : Bool) : Codec × Frame × Ret :=
  if s.running = false then (s, frame, .code (-EPERM))
  else if s.numElements = 0 ∧ blocking = false then (s, frame, .code (-EAGAIN))
  else if s.numElements = 0 then (s.emit (.cond_wait .wakeup_cond), frame, .suspended)
  else
    let element := s.dataBuffer.getD s.readPos 0
    let s1 := { s with readPos := u8 ((s.readPos + 1) % BUF_SIZE) }
    let s2 := { s1 with numElements := u8 (s1.numElements + 255) }
    (s2, element, .code 0)

/-- The function `codec_pushFrame` (lines 182-214). -/
def codec_pushFrame (s : Codec) (frame : Frame) (blocking : Bool) : Codec × Ret :=
  if s.running = false then (s, .code (-EPERM))
  else
    let element := frame
    if s.numElements ≥ BUF_SIZE ∧ blocking = false then (s, .code (-EAGAIN))
    else if s.numElements ≥ BUF_SIZE then (s.emit (.cond_wait .wakeup_cond), .suspended)
    else
      let s1 := { s with dataBuffer := s.dataBuffer.set s.writePos element }
      let s2 := { s1 with writePos := u8 ((s1.writePos + 1) % BUF_SIZE) }
      let s3 := if s2.numElements = 0 then s2.emit (.cond_signal .not_empty) else s2
      let s4 := { s3 with numElements := u8 (s3.numElements + 1) }
      (s4, .code 0)

/-- One step of an interleaving on the queue: an external push or pop, the
encode worker's write, the decode worker's read. -/
inductive QOp
  | push (frame : Frame) (blocking : Bool)
  | pop (frame : Frame) (blocking : Bool)
  | write (frame : Frame)
  | read
  deriving DecidableEq, Repr

/-- Effect of one queue step on the shared state. -/
def QOp.apply (s : Codec) : QOp → Codec
  | .push frame blocking => (codec_pushFrame s frame blocking).1
  | .pop frame blocking  => (codec_popFrame s frame blocking).1
  | .write frame         => encodeFunc_write s frame
  | .read                => (decodeFunc_read s).1

/-- Range condition on the three queue counters. -/
def Bounded (s : Codec) : Prop :=
  s.numElements ≤ BUF_SIZE ∧ s.readPos < BUF_SIZE ∧ s.writePos < BUF_SIZE

instance (s : Codec) : Decidable (Bounded s) := by
  unfold Bounded
  infer_instance

/-- Ring-buffer invariant: counters in range, `writePos` determined by `readPos`
and `numElements`, and `dataBuffer` an array of `BUF_SIZE` slots. -/
def Inv (s : Codec) : Prop :=
  s.numElements ≤ BUF_SIZE ∧ s.readPos < BUF_SIZE ∧
  s.writePos = (s.readPos + s.numElements) % BUF_SIZE ∧
  s.dataBuffer.length = BUF_SIZE

instance (s : Codec) : Decidable (Inv s) := by
  unfold Inv
  infer_instance

/-- The frames held by the queue, oldest first: the `numElements` slots starting
at `readPos`. -/
def contents (s : Codec) : List Frame :=
  (List.range s.numElements).map
    (fun i => s.dataBuffer.getD ((s.readPos + i) % BUF_SIZE) 0)

/-- Waits on a condition variable. -/
def isWait : Effect → Bool
  | .cond_wait _ => true
  | _ => false

/-- No wait on a condition variable was recorded between `s` and `t`: every wait
in the trace of `t` is already in the trace of `s`. -/
def NoWait (s t : Codec) : Prop :=
  ∀ e ∈ t.trace, isWait e = true → e ∈ s.trace

instance (s t : Codec) : Decidable (NoWait s t) := by
  unfold NoWait
  infer_instance

/-- Overwrite-oldest enqueue on the abstract queue (spec section 4.3, internal
producer write): drop the oldest frame when `BUF_SIZE` frames are held, then
append. -/
def specWrite (q : List Frame) (f : Frame) : List Frame :=
  (if BUF_SIZE ≤ q.length then q.tail else q) ++ [f]

/-- A series of `codec_popFrame` calls, each with its own caller buffer and
blocking flag; the buffer content and the result of each call are collected. -/
def popAll (s : Codec) : List (Frame × Bool) → Codec × List (Frame × Ret)
  | [] => (s, [])
  | (buf, blocking) :: rest =>
    let r := codec_popFrame s buf blocking
    let t := popAll r.1 rest
    (t.1, (r.2.1, r.2.2) :: t.2)

/-- A series of blocking `codec_pushFrame` calls; the results are collected. -/
def pushAll (s : Codec) : List Frame → Codec × List Ret
  | [] => (s, [])
  | f :: rest =>
    let r := codec_pushFrame s f true
    let t := pushAll r.1 rest
    (t.1, r.2 :: t.2)

/-- Steps of an encode session seen from the queue: the worker writes a frame,
or an external caller pops. -/
inductive EncOp
  | write (frame : Frame)
  | pop (frame : Frame) (blocking : Bool)
  deriving DecidableEq, Repr

/-- Effect of one encode-session step on the shared state. -/
def EncOp.apply (s : Codec) : EncOp → Codec
  | .write frame        => encodeFunc_write s frame
  | .pop frame blocking => (codec_popFrame s frame blocking).1

/-- The frames handed back by the pops of an interleaving that returned 0, in
call order. -/
def popped (s : Codec) : List EncOp → List Frame
  | [] => []
  | .write frame :: ops => popped (encodeFunc_write s frame) ops
  | .pop frame blocking :: ops =>
    let r := codec_popFrame s frame blocking
    if r.2.2 = Ret.code 0 then r.2.1 :: popped r.1 ops else popped r.1 ops

/-- The frames written by the worker in an interleaving, in order. -/
def written : List EncOp → List Frame
  | [] => []
  | .write frame :: ops => frame :: written ops
  | .pop _ _ :: ops => written ops

/-- Spec-side bookkeeping of one step: the written frames that are neither
popped nor discarded by overwrite-oldest, oldest first. -/
def liveStep (q : List Frame) : EncOp → List Frame
  | .write frame => specWrite q frame
  | .pop _ _     => q.tail

/-- The live frames after a history that starts on the empty queue. -/
def live (ops : List EncOp) : List Frame := ops.foldl liveStep []

/-- The call `memset(audioBuf, 0x00, n * sizeof(stream_sample_t))`. -/
def memset0 (audioBuf : List Int) (n : Nat) : List Int :=
  (audioBuf.take n).map (fun _ => 0) ++ audioBuf.drop n

/-- The loop `for(i = 0; i < 160; i++) audioBuf[i] *= 2` compiled in under
`PLATFORM_MD3x0` (lines 350-353). -/
def bumpVolume (audioBuf : List Int) : List Int :=
  (audioBuf.take 160).map (fun x => i16 (x * 2)) ++ audioBuf.drop 160

/-- What follows `codec2_decode` in the loop body, by build: the volume bump
when `PLATFORM_MD3x0` is defined, nothing otherwise. -/
def postDecode (md3x0 : Bool) (audioBuf : List Int) : List Int :=
  if md3x0 then bumpVolume audioBuf else audioBuf

/-- Body of the `decodeFunc` loop after the path check (lines 325-361).
`codec2_decode c2 audioBuf frame` is the external decoder: it returns its new
state and the new content of `audioBuf`.  `idle` is the content of the buffer
returned by `outputStream_getIdleBuffer`.  The result is the state, the decoder
state and the buffer handed to `outputStream_sync`. -/
def decodeFunc_body {C2 : Type} (md3x0 : Bool)
    (codec2_decode : C2 → List Int → Frame → C2 × List Int)
    (s : Codec) (c2 : C2) (idle : List Int) : Codec × C2 × List Int :=
  let r := decodeFunc_read s
  let audioBuf := idle
  if r.2.2 then
    let d := codec2_decode c2 audioBuf r.2.1
    (r.1, d.1, postDecode md3x0 d.2)
  else
    (r.1, c2, memset0 audioBuf 160)

/-- One pass through the `while(reqStop == false)` loop of `decodeFunc`
(lines 319-362); `none` when the loop is left. -/
def decodeFunc_iter {C2 : Type} (env : Env) (md3x0 : Bool)
    (codec2_decode : C2 → List Int → Frame → C2 × List Int) (oPath : PathId)
    (s : Codec) (c2 : C2) (idle : List Int) : Option (Codec × C2 × List Int) :=
  if s.reqStop = false then
    if env.audioPath_getStatus oPath ≠ env.PATH_OPEN then none
    else some (decodeFunc_body md3x0 codec2_decode s c2 idle)
  else none

/-- Consecutive passes through the `decodeFunc` loop, one per idle buffer; the
buffers handed to the output stream are collected.  `none` when the loop is left
before the last pass. -/
def decodeFunc_iters {C2 : Type} (env : Env) (md3x0 : Bool)
    (codec2_decode : C2 → List Int → Frame → C2 × List Int) (oPath : PathId) :
    List (List Int) → Codec → C2 → Option (Codec × C2 × List (List Int))
  | [], s, c2 => some (s, c2, [])
  | idle :: rest, s, c2 =>
    match decodeFunc_iter env md3x0 codec2_decode oPath s c2 idle with
    | none => none
    | some r =>
      match decodeFunc_iters env md3x0 codec2_decode oPath rest r.1 r.2.1 with
      | none => none
      | some t => some (t.1, t.2.1, r.2.2 :: t.2.2)

/-- Reference for the round trip: the frames decoded one after the other, each
into its idle buffer, followed by `post`. -/
def decodeSeq {C2 : Type} (codec2_decode : C2 → List Int → Frame → C2 × List Int)
    (post : List Int → List Int) : C2 → List (Frame × List Int) → List (List Int)
  | _, [] => []
  | c2, (f, idle) :: rest =>
    let d := codec2_decode c2 idle f
    post d.2 :: decodeSeq codec2_decode post d.1 rest

/-- Repeated `codec_init`. -/
def initN : Nat → Codec → Codec
  | 0, s => s
  | n + 1, s => initN n (codec_init s)

/-- The two session entry points, by worker function. -/
def codec_start : WorkerFunc → Env → Codec → PathId → List WorkerOp → Codec × Bool
  | .encodeFunc => codec_startEncode
  | .decodeFunc => codec_startDecode

/-- The workers spawned according to a trace, oldest first. -/
def spawned (tr : List Effect) : List (WorkerFunc × PathId) :=
  tr.filterMap (fun e => match e with
    | .create func arg => some (func, arg)
    | _ => none)

/-- Signals on a condition variable, the only pthread calls a worker makes on
the queue. -/
def isSignal : Effect → Bool
  | .cond_signal _ => true
  | _ => false

/-- Example oracle: `p` is the one open path. -/
def Env.only (p : PathId) : Env :=
  { audioPath_getStatus := fun q => if q = p then 1 else 0, PATH_OPEN := 1 }

/-- Example state: initialised once, with an encode session running on path 1. -/
def Codec.encoding : Codec :=
  (codec_startEncode (Env.only 1) (codec_init Codec.boot) 1 []).1

/-- Example state: initialised once, with a decode session running on path 1. -/
def Codec.decoding : Codec :=
  (codec_startDecode (Env.only 1) (codec_init Codec.boot) 1 []).1

/-- Example decoder: stateless, every sample of the block takes the value of
the frame. -/
def flatDecoder (c2 : Unit) (audioBuf : List Int) (frame : Frame) : Unit × List Int :=
  (c2, audioBuf.map (fun _ => (frame : Int)))

/-- Example idle buffer: one half of `audioBuf[320]`, holding 160 samples of value 9. -/
def idleBlock : List Int := List.replicate 160 9

/-- Build switches tested by the unit. -/
structure Build where
  PLATFORM_MOD17 : Bool
  PLATFORM_LINUX : Bool
  PLATFORM_MD3x0 : Bool
  deriving DecidableEq, Repr

/-- The constant `micGainPre` (lines 48-54). -/
def micGainPre (b : Build) : Int := if b.PLATFORM_MOD17 then 4 else 8

/-- The constant `micGainPost` (lines 48-54). -/
def micGainPost (b : Build) : Int := if b.PLATFORM_MOD17 then 3 else 4

/-- Direction flag handed to `audioStream_start`. -/
inductive StreamDir
  | STREAM_INPUT
  | STREAM_OUTPUT
  deriving DecidableEq, Repr

/-- Calls made by a worker into the audio stream layer, the DSP library and
CODEC2, in program order. -/
inductive Call
  | audioStream_start (path : PathId) (dir : StreamDir)
  | dsp_resetFilterState
  | codec2_create
  | inputStream_getData
  | dsp_dcRemoval
  | codec2_encode
  | outputStream_sync (bufChanged : Bool)
  | outputStream_getIdleBuffer
  | codec2_decode
  | audioStream_terminate
  | audioStream_stop
  | codec2_destroy
  deriving DecidableEq, Repr

/-- How a run of a worker function ends: the early return after a failed
`audioStream_start`, the loop condition `reqStop == false` failing, the `break`
on a path that is not open, or not yet (the worker is still in its loop when the
script of passes is used up). -/
inductive WorkerEnd
  | startFailed
  | stopRequested
  | pathClosed
  | inLoop
  deriving DecidableEq, Repr

/-- Result of a run of a worker function: the shared state it leaves, the calls
it made and how it ended. -/
structure WorkerRun where
  state : Codec
  calls : List Call
  ended : WorkerEnd
  deriving DecidableEq, Repr

/-- The instants of one pass through the encode loop at which the path status
can be looked at: on entry to the loop body, and once `inputStream_getData` has
delivered its block. -/
inductive Instant
  | loopTop
  | blockDelivered
  deriving DecidableEq, Repr

/-- What the surroundings present to one pass through the encode loop: the path
oracle at each instant, and the block returned by `inputStream_getData`
(`none` when `audio.data` is `NULL`). -/
structure EncodePass where
  oracle : Instant → Env
  audio  : Option (List Int)

/-- What the surroundings present to one pass through the decode loop: the path
oracle and the content of the idle buffer. -/
structure DecodePass where
  env  : Env
  idle : List Int

deriving instance DecidableEq for Except

/-- Lines 249-265 of `encodeFunc`: conditioning of the block (left out under
`PLATFORM_LINUX`) and compression.  `dsp_dcRemoval` and `codec2_encode` are the
external filter and encoder, each returning its new state.  The result is the
encoder state, the filter state, the frame and the calls made. -/
def encodeFunc_process {C2 F : Type} (b : Build)
    (dsp_dcRemoval : F → List Int → F × List Int)
    (codec2_encode : C2 → List Int → C2 × Frame)
    (c2 : C2) (dcrState : F) (data : List Int) : C2 × F × Frame × List Call :=
  if b.PLATFORM_LINUX then
    let e := codec2_encode c2 data
    (e.1, dcrState, e.2, [Call.codec2_encode])
  else
    let pre := data.map (fun x => i16 (x * micGainPre b))
    let d := dsp_dcRemoval dcrState pre
    let post := d.2.map (fun x => i16 (x * micGainPost b))
    let e := codec2_encode c2 post
    (e.1, d.1, e.2, [Call.dsp_dcRemoval, Call.codec2_encode])

/-- One pass through the `while(reqStop == false)` loop of `encodeFunc`
(lines 239-286).  The path status is read once, from the oracle at
`Instant.loopTop`.  An `error` is the way the loop is left. -/
def encodeFunc_pass {C2 F : Type} (b : Build)
    (dsp_dcRemoval : F → List Int → F × List Int)
    (codec2_encode : C2 → List Int → C2 × Frame) (iPath : PathId)
    (p : EncodePass) (s : Codec) (c2 : C2) (dcrState : F) :
    Except WorkerEnd (Codec × C2 × F × List Call) :=
  if s.reqStop = false then
    if (p.oracle Instant.loopTop).audioPath_getStatus iPath ≠
        (p.oracle Instant.loopTop).PATH_OPEN then
      Except.error WorkerEnd.pathClosed
    else
      match p.audio with
      | none => Except.ok (s, c2, dcrState, [Call.inputStream_getData])
      | some data =>
        let r := encodeFunc_process b dsp_dcRemoval codec2_encode c2 dcrState data
        Except.ok (encodeFunc_write s r.2.2.1, r.1, r.2.1, Call.inputStream_getData :: r.2.2.2)
  else
    Except.error WorkerEnd.stopRequested

/-- The loop of `encodeFunc` run on a script of passes. -/
def encodeFunc_loop {C2 F : Type} (b : Build)
    (dsp_dcRemoval : F → List Int → F × List Int)
    (codec2_encode : C2 → List Int → C2 × Frame) (iPath : PathId) :
    List EncodePass → Codec → C2 → F → Codec × List Call × WorkerEnd
  | [], s, _, _ => (s, [], WorkerEnd.inLoop)
  | p :: rest, s, c2, dcrState =>
    match encodeFunc_pass b dsp_dcRemoval codec2_encode iPath p s c2 dcrState with
    | Except.error e => (s, [], e)
    | Except.ok r =>
      let t := encodeFunc_loop b dsp_dcRemoval codec2_encode iPath rest r.1 r.2.1 r.2.2.1
      (t.1, r.2.2.2 ++ t.2.1, t.2.2)

/-- The function `encodeFunc` (lines 219-292).  `iStream` is the value returned
by `audioStream_start`, `c2` the instance returned by `codec2_create` and
`dcrState` the filter state left by `dsp_resetFilterState`. -/
def encodeFunc {C2 F : Type} (b : Build)
    (dsp_dcRemoval : F → List Int → F × List Int)
    (codec2_encode : C2 → List Int → C2 × Frame)
    (iStream : Int) (c2 : C2) (dcrState : F) (iPath : PathId)
    (passes : List EncodePass) (s : Codec) : WorkerRun :=
  if iStream < 0 then
    { state := { s with running := false },
      calls := [Call.audioStream_start iPath StreamDir.STREAM_INPUT],
      ended := WorkerEnd.startFailed }
  else
    let l := encodeFunc_loop b dsp_dcRemoval codec2_encode iPath passes s c2 dcrState
    let opening := [Call.audioStream_start iPath StreamDir.STREAM_INPUT,
                    Call.dsp_resetFilterState, Call.codec2_create]
    if l.2.2 = WorkerEnd.inLoop then
      { state := l.1, calls := opening ++ l.2.1, ended := l.2.2 }
    else
      { state := l.1,
        calls := opening ++ l.2.1 ++ [Call.audioStream_terminate, Call.codec2_destroy],
        ended := l.2.2 }

/-- The loop of `decodeFunc` run on a script of passes; each pass is
`decodeFunc_iter`. -/
def decodeFunc_loop {C2 : Type} (b : Build)
    (codec2_decode : C2 → List Int → Frame → C2 × List Int) (oPath : PathId) :
    List DecodePass → Codec → C2 → Codec × List Call × WorkerEnd
  | [], s, _ => (s, [], WorkerEnd.inLoop)
  | p :: rest, s, c2 =>
    match decodeFunc_iter p.env b.PLATFORM_MD3x0 codec2_decode oPath s c2 p.idle with
    | none => (s, [], if s.reqStop = false then WorkerEnd.pathClosed else WorkerEnd.stopRequested)
    | some r =>
      let t := decodeFunc_loop b codec2_decode oPath rest r.1 r.2.1
      let made := if (decodeFunc_read s).2.2
        then [Call.outputStream_getIdleBuffer, Call.codec2_decode, Call.outputStream_sync true]
        else [Call.outputStream_getIdleBuffer, Call.outputStream_sync true]
      (t.1, made ++ t.2.1, t.2.2)

/-- The function `decodeFunc` (lines 294-369).  `oStream` is the value returned
by `audioStream_start` and `c2` the instance returned by `codec2_create`. -/
def decodeFunc {C2 : Type} (b : Build)
    (codec2_decode : C2 → List Int → Frame → C2 × List Int)
    (oStream : Int) (c2 : C2) (oPath : PathId)
    (passes : List DecodePass) (s : Codec) : WorkerRun :=
  if oStream < 0 then
    { state := { s with running := false },
      calls := [Call.audioStream_start oPath StreamDir.STREAM_OUTPUT],
      ended := WorkerEnd.startFailed }
  else
    let l := decodeFunc_loop b codec2_decode oPath passes s c2
    let opening := [Call.audioStream_start oPath StreamDir.STREAM_OUTPUT,
                    Call.codec2_create, Call.outputStream_sync false]
    if l.2.2 = WorkerEnd.inLoop then
      { state := l.1, calls := opening ++ l.2.1, ended := l.2.2 }
    else
      { state := l.1,
        calls := opening ++ l.2.1 ++ [Call.audioStream_stop, Call.codec2_destroy],
        ended := l.2.2 }

/-- The public entry points of `audio_codec.h`, as steps on the shared state. -/
inductive ApiOp
  | init
  | terminate (residual : List WorkerOp)
  | startEncode (env : Env) (path : PathId) (residual : List WorkerOp)
  | startDecode (env : Env) (path : PathId) (residual : List WorkerOp)
  | stop (path : PathId) (residual : List WorkerOp)
  | pushFrame (frame : Frame) (blocking : Bool)
  | popFrame (frame : Frame) (blocking : Bool)

/-- Effect of one public call on the shared state. -/
def ApiOp.apply (s : Codec) : ApiOp → Codec
  | .init                        => codec_init s
  | .terminate residual          => codec_terminate s residual
  | .startEncode env path residual => (codec_startEncode env s path residual).1
  | .startDecode env path residual => (codec_startDecode env s path residual).1
  | .stop path residual          => codec_stop s path residual
  | .pushFrame frame blocking    => (codec_pushFrame s frame blocking).1
  | .popFrame frame blocking     => (codec_popFrame s frame blocking).1

/-- Example oracle of a pass: path `p` open on entry to the loop body, path `q`
open once the block is delivered. -/
def passOracle (p q : PathId) : Instant → Env
  | Instant.loopTop        => Env.only p
  | Instant.blockDelivered => Env.only q

/-- Example filter: stateless, leaves the block as it is. -/
def idFilter (st : Unit) (data : List Int) : Unit × List Int := (st, data)

/-- Example encoder: stateless, the frame is the absolute value of the first
sample. -/
def headEncoder (c2 : Unit) (data : List Int) : Unit × Frame := (c2, (data.headD 0).natAbs)

/-- Example build: none of the platform switches defined. -/
def Build.plain : Build :=
  { PLATFORM_MOD17 := false, PLATFORM_LINUX := false, PLATFORM_MD3x0 := false }

/-- Example block of captured audio: 160 samples of value 9. -/
def micBlock : List Int := List.replicate 160 9

/-- Example state: `codec_init` called 256 times from program load, an encode
session started on the open path 1, and the worker gone: stream acquired, loop
left on its first pass because path 1 was no longer open. -/
def Codec.orphaned : Codec :=
  (encodeFunc Build.plain idFilter headEncoder 0 () () 1
    [{ oracle := passOracle 2 2, audio := none }]
    (codec_startEncode (Env.only 1) (initN 256 Codec.boot) 1 []).1).state

/-- Example state: an encode session started on the open path 1 before any
`codec_init`, and the worker gone: stream acquired, loop left on its first pass
because path 1 was no longer open. -/
def Codec.orphanedCold : Codec :=
  (encodeFunc Build.plain idFilter headEncoder 0 () () 1
    [{ oracle := passOracle 2 2, audio := none }]
    (codec_startEncode (Env.only 1) Codec.boot 1 []).1).state

/-! ## Single steps -/

theorem buf4 (l : List Frame) (h : l.length = 4) : ∃ a b c d, l = [a, b, c, d] := by
  match l, h with
  | [a, b, c, d], _ => exact ⟨a, b, c, d, rfl⟩

theorem bounded_step (s : Codec) (op : QOp) (h : Bounded s) :
    Bounded (QOp.apply s op) ∧
    s.numElements ≤ (QOp.apply s op).numElements + 1 ∧
    (QOp.apply s op).numElements ≤ s.numElements + 1 := by
  obtain ⟨ap, ic, run, rs, r, w, n, buf, tr⟩ := s
  obtain ⟨hn, hr, hw⟩ := h
  simp only [BUF_SIZE] at hn hr hw
  cases op with
  | push frame blocking =>
    simp only [QOp.apply, codec_pushFrame, Bounded, BUF_SIZE, u8, Codec.emit]
    split_ifs <;> simp at * <;> omega
  | pop frame blocking =>
    simp only [QOp.apply, codec_popFrame, Bounded, BUF_SIZE, u8, Codec.emit]
    split_ifs <;> simp at * <;> omega
  | write frame =>
    simp only [QOp.apply, encodeFunc_write, Bounded, BUF_SIZE, u8, Codec.emit]
    split_ifs <;> simp at * <;> omega
  | read =>
    simp only [QOp.apply, decodeFunc_read, Bounded, BUF_SIZE, u8, Codec.emit]
    split_ifs <;> simp at * <;> omega

theorem bounded_run (ops : List QOp) (s : Codec) (h : Bounded s) :
    Bounded (ops.foldl QOp.apply s) := by
  induction ops generalizing s with
  | nil => exact h
  | cons op ops ih => exact ih _ (bounded_step s op h).1

theorem bounded_startThread (s : Codec) (func : WorkerFunc) : Bounded (startThread s func) := by
  simp [Bounded, startThread, Codec.emit, BUF_SIZE]

/-- C1. From the state left by `startThread`, after any finite sequence of
external pushes and pops (any blocking flag, failed and suspended calls
included), worker writes and worker reads, `numElements` is at most `BUF_SIZE`
and `readPos`, `writePos` are below `BUF_SIZE`; and one more step moves
`numElements` by at most one, so the 8-bit counter never wraps. -/
theorem queue_counters_in_range (s0 : Codec) (func : WorkerFunc) (ops : List QOp) (op : QOp) :
    (ops.foldl QOp.apply (startThread s0 func)).numElements ≤ BUF_SIZE ∧
    (ops.foldl QOp.apply (startThread s0 func)).readPos < BUF_SIZE ∧
    (ops.foldl QOp.apply (startThread s0 func)).writePos < BUF_SIZE ∧
    (ops.foldl QOp.apply (startThread s0 func)).numElements ≤
      (QOp.apply (ops.foldl QOp.apply (startThread s0 func)) op).numElements + 1 ∧
    (QOp.apply (ops.foldl QOp.apply (startThread s0 func)) op).numElements ≤
      (ops.foldl QOp.apply (startThread s0 func)).numElements + 1 := by
  have hb := bounded_run ops _ (bounded_startThread s0 func)
  exact ⟨hb.1, hb.2.1, hb.2.2, (bounded_step _ op hb).2⟩

/-! ## Session control -/

/-- C4. When the requested path is not open, `codec_startEncode` and
`codec_startDecode` return `false` and hand back the state they were given:
flags, bound path, queue, and the trace of pthread calls (no join, no thread
creation), whether or not a session is running. -/
theorem start_invalid_path (env : Env) (s : Codec) (path : PathId) (residual : List WorkerOp)
    (hclosed : env.audioPath_getStatus path ≠ env.PATH_OPEN) :
    codec_startEncode env s path residual = (s, false) ∧
    codec_startDecode env s path residual = (s, false) := by
  simp [codec_startEncode, codec_startDecode, hclosed]

/-- C5. When the requested path is open, a session is running and its bound path
is still open, `codec_startEncode` and `codec_startDecode` return `false` and
hand back the state they were given (no join, no thread creation); the
requested path may be the bound path. -/
theorem start_busy (env : Env) (s : Codec) (path : PathId) (residual : List WorkerOp)
    (hopen : env.audioPath_getStatus path = env.PATH_OPEN)
    (hrun : s.running = true)
    (hlive : env.audioPath_getStatus s.audioPath = env.PATH_OPEN) :
    codec_startEncode env s path residual = (s, false) ∧
    codec_startDecode env s path residual = (s, false) := by
  simp [codec_startEncode, codec_startDecode, hopen, hrun, hlive]

/-- C7. When no session is running, or the path differs from the bound path,
`codec_stop` hands back the state it was given: flags, bound path, queue and
trace are unchanged, so no thread is joined. -/
theorem stop_noop (s : Codec) (path : PathId) (residual : List WorkerOp)
    (h : s.running = false ∨ path ≠ s.audioPath) :
    codec_stop s path residual = s := by
  unfold codec_stop
  rcases h with h | h
  · simp [h]
  · have h2 : s.audioPath ≠ path := fun e => h e.symm
    simp [h2]

theorem workerOp_frame (s : Codec) (op : WorkerOp) :
    (WorkerOp.apply s op).audioPath = s.audioPath ∧
    (WorkerOp.apply s op).initCnt = s.initCnt ∧
    ∃ l, (WorkerOp.apply s op).trace = s.trace ++ l ∧ l.all isSignal = true := by
  obtain ⟨ap, ic, run, rs, r, w, n, buf, tr⟩ := s
  cases op with
  | write frame =>
    simp only [WorkerOp.apply, encodeFunc_write, Codec.emit]
    split_ifs <;> simp [isSignal]
  | read =>
    simp only [WorkerOp.apply, decodeFunc_read, Codec.emit]
    split_ifs <;> simp [isSignal]
  | startFailed => simp [WorkerOp.apply]

theorem residual_frame (residual : List WorkerOp) (s : Codec) :
    (residual.foldl WorkerOp.apply s).audioPath = s.audioPath ∧
    (residual.foldl WorkerOp.apply s).initCnt = s.initCnt ∧
    ∃ l, (residual.foldl WorkerOp.apply s).trace = s.trace ++ l ∧ l.all isSignal = true := by
  induction residual generalizing s with
  | nil => exact ⟨rfl, rfl, [], by simp, rfl⟩
  | cons op ops ih =>
    obtain ⟨h1, h2, l1, h3, h4⟩ := workerOp_frame s op
    obtain ⟨k1, k2, l2, k3, k4⟩ := ih (WorkerOp.apply s op)
    refine ⟨by simpa [h1] using k1, by simpa [h2] using k2, l1 ++ l2, ?_, ?_⟩
    · simp [k3, h3]
    · simp only [List.all_append, h4, k4, Bool.and_self]

theorem spawned_signals (l : List Effect) (h : l.all isSignal = true) : spawned l = [] := by
  induction l with
  | nil => rfl
  | cons e l ih =>
    simp only [List.all_cons, Bool.and_eq_true] at h
    cases e <;> simp_all [spawned, isSignal]

theorem spawned_append (l k : List Effect) : spawned (l ++ k) = spawned l ++ spawned k := by
  simp [spawned, List.filterMap_append]

theorem start_eq (func : WorkerFunc) (env : Env) (s : Codec) (p : PathId)
    (residual : List WorkerOp)
    (hopen : env.audioPath_getStatus p = env.PATH_OPEN)
    (hfree : s.running = false ∨ env.audioPath_getStatus s.audioPath ≠ env.PATH_OPEN) :
    codec_start func env s p residual =
      (startThread { (if s.running then stopThread s residual else s) with
                      running := true, audioPath := p } func, true) := by
  cases hr : s.running <;> cases func <;> rcases hfree with h | h <;>
    simp_all [codec_start, codec_startEncode, codec_startDecode]

/-- C6. For an open path `p`, `codec_startEncode` / `codec_startDecode` succeeds
when no session is running or the bound path of the running session is not open.
In the resulting state the queue is empty (`readPos = writePos = numElements = 0`,
a non-blocking pop finds nothing), `reqStop` is clear, the bound path is `p`,
`running` is set, and exactly one worker was spawned: the requested function with
argument `p`.  With no session running the thread creation is the only pthread
call made.  In the stale case `reqStop` is set first, the old worker runs to its
end (it may still signal), it is joined, and only then is the queue reset and the
new worker created. -/
theorem start_succeeds (func : WorkerFunc) (env : Env) (s : Codec) (p : PathId)
    (residual : List WorkerOp)
    (hopen : env.audioPath_getStatus p = env.PATH_OPEN)
    (hfree : s.running = false ∨ env.audioPath_getStatus s.audioPath ≠ env.PATH_OPEN) :
    (codec_start func env s p residual).2 = true ∧
    (codec_start func env s p residual).1.readPos = 0 ∧
    (codec_start func env s p residual).1.writePos = 0 ∧
    (codec_start func env s p residual).1.numElements = 0 ∧
    (codec_start func env s p residual).1.reqStop = false ∧
    (codec_start func env s p residual).1.audioPath = p ∧
    (codec_start func env s p residual).1.running = true ∧
    spawned (codec_start func env s p residual).1.trace = spawned s.trace ++ [(func, p)] ∧
    (s.running = false →
      (codec_start func env s p residual).1.trace = s.trace ++ [Effect.create func p] ∧
      (codec_start func env s p residual).1.dataBuffer = s.dataBuffer) ∧
    (s.running = true →
      ∃ mid, mid.all isSignal = true ∧
        (residual.foldl WorkerOp.apply { s with reqStop := true }).trace = s.trace ++ mid ∧
        (codec_start func env s p residual).1.trace =
          s.trace ++ mid ++ [Effect.join, Effect.create func p] ∧
        (codec_start func env s p residual).1.dataBuffer =
          (residual.foldl WorkerOp.apply { s with reqStop := true }).dataBuffer) ∧
    contents (codec_start func env s p residual).1 = [] ∧
    ∀ buf, codec_popFrame (codec_start func env s p residual).1 buf false =
      ((codec_start func env s p residual).1, buf, Ret.code (-EAGAIN)) := by
  rw [start_eq func env s p residual hopen hfree]
  obtain ⟨-, -, mid, hmid, hsig⟩ := residual_frame residual { s with reqStop := true }
  simp only [] at hmid
  refine ⟨rfl, rfl, rfl, rfl, rfl, rfl, rfl, ?_, ?_, ?_, ?_, ?_⟩
  · cases hr : s.running
    · simp [startThread, Codec.emit, spawned]
    · simp [startThread, Codec.emit, stopThread, hmid, spawned_append, spawned_signals mid hsig]
      simp [spawned]
  · intro hr
    simp [hr, startThread, Codec.emit]
  · intro hr
    refine ⟨mid, hsig, hmid, ?_, ?_⟩
    · have hmid2 := hmid
      simp only [hr] at hmid2
      simp [hr, startThread, Codec.emit, stopThread, hmid2]
    · simp [hr, startThread, Codec.emit, stopThread]
  · simp [contents, startThread, Codec.emit]
  · intro buf
    simp [codec_popFrame, startThread, Codec.emit]

/-! ## Error results of the queue calls -/

/-- C8. With no session running, `codec_pushFrame` and `codec_popFrame` return
`-EPERM` for either blocking flag and any fill level.  With a session running
and counters in range, a non-blocking push returns `-EAGAIN` exactly when
`numElements = BUF_SIZE` and 0 otherwise, and a non-blocking pop returns
`-EAGAIN` exactly when `numElements = 0` and 0 otherwise.  A call that returns a
non-zero code hands back the state it was given (queue indices, count and slots
included), and such a pop leaves the caller's buffer as it was. -/
theorem queue_call_errors (s : Codec) (f buf : Frame) (blocking : Bool)
    (hcount : s.numElements ≤ BUF_SIZE) :
    (s.running = false →
      codec_pushFrame s f blocking = (s, Ret.code (-EPERM)) ∧
      codec_popFrame s buf blocking = (s, buf, Ret.code (-EPERM))) ∧
    (s.running = true → s.numElements = BUF_SIZE →
      codec_pushFrame s f false = (s, Ret.code (-EAGAIN))) ∧
    (s.running = true → s.numElements ≠ BUF_SIZE →
      (codec_pushFrame s f false).2 = Ret.code 0) ∧
    (s.running = true → s.numElements = 0 →
      codec_popFrame s buf false = (s, buf, Ret.code (-EAGAIN))) ∧
    (s.running = true → s.numElements ≠ 0 →
      (codec_popFrame s buf false).2.2 = Ret.code 0) ∧
    (∀ rc, (codec_pushFrame s f blocking).2 = Ret.code rc → rc ≠ 0 →
      (codec_pushFrame s f blocking).1 = s) ∧
    (∀ rc, (codec_popFrame s buf blocking).2.2 = Ret.code rc → rc ≠ 0 →
      (codec_popFrame s buf blocking).1 = s ∧ (codec_popFrame s buf blocking).2.1 = buf) := by
  simp only [BUF_SIZE] at hcount
  refine ⟨?_, ?_, ?_, ?_, ?_, ?_, ?_⟩
  · intro hr
    simp [codec_pushFrame, codec_popFrame, hr]
  · intro hr hn
    simp [codec_pushFrame, hr, hn]
  · intro hr hn
    have hlt : ¬ BUF_SIZE ≤ s.numElements := by
      simp only [BUF_SIZE] at hn ⊢
      omega
    simp [codec_pushFrame, hr, hlt]
  · intro hr hn
    simp [codec_popFrame, hr, hn]
  · intro hr hn
    simp [codec_popFrame, hr, hn]
  · intro rc hrc hne
    unfold codec_pushFrame at hrc ⊢
    split_ifs at hrc ⊢ <;> simp_all
  · intro rc hrc hne
    unfold codec_popFrame at hrc ⊢
    split_ifs at hrc ⊢ <;> simp_all

/-! ## Life cycle -/

theorem write_step (s : Codec) (f : Frame) (h : Inv s) :
    Inv (encodeFunc_write s f) ∧
    contents (encodeFunc_write s f) = specWrite (contents s) f ∧
    (encodeFunc_write s f).running = s.running := by
  obtain ⟨ap, ic, run, rs, r, w, n, buf, tr⟩ := s
  obtain ⟨hn, hr, hw, hb⟩ := h
  simp only [BUF_SIZE] at hn hr hw hb
  obtain ⟨a, b, c, d, rfl⟩ := buf4 buf hb
  subst hw
  interval_cases r <;> interval_cases n <;>
    simp [Inv, encodeFunc_write, contents, specWrite, BUF_SIZE, u8, Codec.emit, List.range_succ]

theorem pop_step (s : Codec) (buf : Frame) (blocking : Bool) (h : Inv s)
    (hrun : s.running = true) :
    Inv (codec_popFrame s buf blocking).1 ∧
    (codec_popFrame s buf blocking).1.running = true ∧
    (contents s = [] →
      contents (codec_popFrame s buf blocking).1 = [] ∧
      (codec_popFrame s buf blocking).2.2 ≠ Ret.code 0) ∧
    (∀ x q, contents s = x :: q →
      contents (codec_popFrame s buf blocking).1 = q ∧
      (codec_popFrame s buf blocking).2 = (x, Ret.code 0)) := by
  obtain ⟨ap, ic, run, rs, r, w, n, dat, tr⟩ := s
  obtain ⟨hn, hr, hw, hb⟩ := h
  simp only [BUF_SIZE] at hn hr hw hb
  simp only [] at hrun
  obtain ⟨a, b, c, d, rfl⟩ := buf4 dat hb
  subst hw hrun
  cases blocking <;> interval_cases r <;> interval_cases n <;>
    simp [Inv, codec_popFrame, contents, BUF_SIZE, u8, Codec.emit, List.range_succ, EAGAIN]

theorem push_step (s : Codec) (f : Frame) (blocking : Bool) (h : Inv s)
    (hrun : s.running = true) (hroom : s.numElements < BUF_SIZE) :
    (codec_pushFrame s f blocking).2 = Ret.code 0 ∧
    Inv (codec_pushFrame s f blocking).1 ∧
    contents (codec_pushFrame s f blocking).1 = contents s ++ [f] ∧
    (codec_pushFrame s f blocking).1.running = true ∧
    (codec_pushFrame s f blocking).1.reqStop = s.reqStop ∧
    NoWait s (codec_pushFrame s f blocking).1 := by
  obtain ⟨ap, ic, run, rs, r, w, n, dat, tr⟩ := s
  obtain ⟨hn, hr, hw, hb⟩ := h
  simp only [BUF_SIZE] at hn hr hw hb hroom
  simp only [] at hrun
  obtain ⟨a, b, c, d, rfl⟩ := buf4 dat hb
  subst hw hrun
  cases blocking <;> interval_cases r <;> interval_cases n <;>
    simp [Inv, codec_pushFrame, contents, BUF_SIZE, u8, Codec.emit, List.range_succ, NoWait] <;>
    first
      | (intro e he _; exact he)
      | (rintro e (he | rfl) hw
         · exact he
         · simp [isWait] at hw)

theorem read_step (s : Codec) (h : Inv s) :
    Inv (decodeFunc_read s).1 ∧
    (decodeFunc_read s).1.reqStop = s.reqStop ∧
    NoWait s (decodeFunc_read s).1 ∧
    (contents s = [] → decodeFunc_read s = (s, 0, false)) ∧
    (∀ x q, contents s = x :: q →
      contents (decodeFunc_read s).1 = q ∧ (decodeFunc_read s).2 = (x, true)) := by
  obtain ⟨ap, ic, run, rs, r, w, n, dat, tr⟩ := s
  obtain ⟨hn, hr, hw, hb⟩ := h
  simp only [BUF_SIZE] at hn hr hw hb
  obtain ⟨a, b, c, d, rfl⟩ := buf4 dat hb
  subst hw
  interval_cases r <;> interval_cases n <;>
    simp [Inv, decodeFunc_read, contents, BUF_SIZE, u8, Codec.emit, List.range_succ, NoWait] <;>
    first
      | (intro e he _; exact he)
      | (rintro e (he | rfl) hw
         · exact he
         · simp [isWait] at hw)

theorem contents_length (s : Codec) : (contents s).length = s.numElements := by
  simp [contents]

theorem residual_buffer_length (residual : List WorkerOp) (s : Codec) :
    (residual.foldl WorkerOp.apply s).dataBuffer.length = s.dataBuffer.length := by
  induction residual generalizing s with
  | nil => rfl
  | cons op ops ih =>
    rw [List.foldl_cons, ih]
    obtain ⟨ap, ic, run, rs, r, w, n, buf, tr⟩ := s
    cases op with
    | write frame =>
      simp only [WorkerOp.apply, encodeFunc_write, Codec.emit]
      split_ifs <;> simp
    | read =>
      simp only [WorkerOp.apply, decodeFunc_read, Codec.emit]
      split_ifs <;> simp
    | startFailed => simp [WorkerOp.apply]

theorem start_inv (func : WorkerFunc) (env : Env) (s0 s : Codec) (p : PathId)
    (residual : List WorkerOp) (hbuf : s0.dataBuffer.length = BUF_SIZE)
    (hstart : codec_start func env s0 p residual = (s, true)) :
    Inv s ∧ s.running = true ∧ s.reqStop = false ∧ contents s = [] := by
  have hlen := residual_buffer_length residual { s0 with reqStop := true }
  have key : s = startThread { (if s0.running then stopThread s0 residual else s0) with
                      running := true, audioPath := p } func := by
    cases func <;>
      simp only [codec_start, codec_startEncode, codec_startDecode] at hstart <;>
      split_ifs at hstart <;> simp_all
  subst key
  cases hr : s0.running <;>
    simp_all [Inv, contents, startThread, stopThread, Codec.emit, BUF_SIZE]

theorem writes_run (fs : List Frame) (s : Codec) (h : Inv s) :
    Inv (fs.foldl encodeFunc_write s) ∧
    contents (fs.foldl encodeFunc_write s) = fs.foldl specWrite (contents s) ∧
    (fs.foldl encodeFunc_write s).running = s.running := by
  induction fs generalizing s with
  | nil => exact ⟨h, rfl, rfl⟩
  | cons f fs ih =>
    obtain ⟨h1, h2, h3⟩ := write_step s f h
    obtain ⟨k1, k2, k3⟩ := ih (encodeFunc_write s f) h1
    exact ⟨k1, by rw [List.foldl_cons, k2, h2, List.foldl_cons], by rw [List.foldl_cons, k3, h3]⟩

theorem specWrite_last (l : List Frame) (f : Frame) :
    specWrite (l.drop (l.length - BUF_SIZE)) f =
      (l ++ [f]).drop ((l ++ [f]).length - BUF_SIZE) := by
  simp only [specWrite, BUF_SIZE, List.length_drop, List.length_append, List.length_singleton]
  by_cases h : 4 ≤ l.length
  · have h1 : 4 ≤ l.length - (l.length - 4) := by omega
    have h2 : l.length + 1 - 4 = (l.length - 4) + 1 := by omega
    have h3 : l.length - 4 + 1 ≤ l.length := by omega
    rw [if_pos h1, h2, List.drop_append_of_le_length h3, List.tail_drop]
  · have h1 : ¬ 4 ≤ l.length - (l.length - 4) := by omega
    have h2 : l.length + 1 - 4 = 0 := by omega
    have h3 : l.length - 4 = 0 := by omega
    rw [if_neg h1, h2, h3]
    simp

theorem specWrite_run (fs : List Frame) :
    fs.foldl specWrite [] = fs.drop (fs.length - BUF_SIZE) := by
  induction fs using List.reverseRecOn with
  | nil => rfl
  | append_singleton fs f ih =>
    rw [List.foldl_append, List.foldl_cons, List.foldl_nil, ih, specWrite_last]

theorem popAll_run (calls : List (Frame × Bool)) (s : Codec) (h : Inv s)
    (hrun : s.running = true) (hlen : calls.length ≤ (contents s).length) :
    (popAll s calls).2 = ((contents s).take calls.length).map (fun f => (f, Ret.code 0)) ∧
    contents (popAll s calls).1 = (contents s).drop calls.length := by
  induction calls generalizing s with
  | nil => simp [popAll]
  | cons c calls ih =>
    obtain ⟨buf, blocking⟩ := c
    obtain ⟨h1, h2, -, h4⟩ := pop_step s buf blocking h hrun
    cases hq : contents s with
    | nil => simp [hq] at hlen
    | cons x q =>
      obtain ⟨k1, k2⟩ := h4 x q hq
      have hlen2 : calls.length ≤ (contents (codec_popFrame s buf blocking).1).length := by
        rw [k1]
        simpa [hq] using hlen
      obtain ⟨j1, j2⟩ := ih (codec_popFrame s buf blocking).1 h1 h2 hlen2
      constructor
      · simp only [popAll, j1, k1, k2, List.length_cons, List.take_succ_cons, List.map_cons]
      · simp only [popAll, j2, k1, List.length_cons, List.drop_succ_cons]

/-! ## Overwrite-oldest and FIFO order -/

/-- C2. After a successful `codec_startEncode`, let the worker write the frames
`fs`, more than `BUF_SIZE` of them, with no pop in between.  Then the queue
holds exactly `BUF_SIZE` frames, namely the last `BUF_SIZE` frames of `fs`
oldest first, and `BUF_SIZE` calls of `codec_popFrame` (any caller buffers and
blocking flags) return 0 and deliver these frames in that order, leaving the
queue empty. -/
theorem overwrite_oldest (env : Env) (s0 s : Codec) (p : PathId) (residual : List WorkerOp)
    (fs : List Frame) (calls : List (Frame × Bool))
    (hbuf : s0.dataBuffer.length = BUF_SIZE)
    (hstart : codec_startEncode env s0 p residual = (s, true))
    (hm : BUF_SIZE < fs.length) (hcalls : calls.length = BUF_SIZE) :
    (fs.foldl encodeFunc_write s).numElements = BUF_SIZE ∧
    contents (fs.foldl encodeFunc_write s) = fs.drop (fs.length - BUF_SIZE) ∧
    (popAll (fs.foldl encodeFunc_write s) calls).2 =
      (fs.drop (fs.length - BUF_SIZE)).map (fun f => (f, Ret.code 0)) ∧
    (popAll (fs.foldl encodeFunc_write s) calls).1.numElements = 0 := by
  obtain ⟨hinv, hrun, -, hemp⟩ := start_inv WorkerFunc.encodeFunc env s0 s p residual hbuf hstart
  obtain ⟨k1, k2, k3⟩ := writes_run fs s hinv
  rw [hemp, specWrite_run] at k2
  have hlen : (contents (fs.foldl encodeFunc_write s)).length = BUF_SIZE := by
    rw [k2, List.length_drop]
    simp only [BUF_SIZE] at hm ⊢
    omega
  obtain ⟨j1, j2⟩ := popAll_run calls _ k1 (by rw [k3, hrun]) (by rw [hlen, hcalls])
  have htake : (contents (fs.foldl encodeFunc_write s)).take calls.length =
      contents (fs.foldl encodeFunc_write s) := by
    rw [hcalls, ← hlen, List.take_length]
  have hdrop : (contents (fs.foldl encodeFunc_write s)).drop calls.length = [] := by
    rw [hcalls, ← hlen, List.drop_length]
  refine ⟨?_, k2, ?_, ?_⟩
  · rw [← contents_length, hlen]
  · rw [j1, htake, k2]
  · rw [← contents_length, j2, hdrop]
    rfl

theorem enc_step (s : Codec) (op : EncOp) (h : Inv s) (hrun : s.running = true) :
    Inv (EncOp.apply s op) ∧ (EncOp.apply s op).running = true ∧
    contents (EncOp.apply s op) = liveStep (contents s) op := by
  cases op with
  | write frame =>
    obtain ⟨h1, h2, h3⟩ := write_step s frame h
    exact ⟨h1, by rw [EncOp.apply, h3, hrun], h2⟩
  | pop frame blocking =>
    obtain ⟨h1, h2, h3, h4⟩ := pop_step s frame blocking h hrun
    refine ⟨h1, h2, ?_⟩
    cases hq : contents s with
    | nil => simpa [liveStep, EncOp.apply] using (h3 hq).1
    | cons x q => simpa [liveStep, EncOp.apply] using (h4 x q hq).1

theorem enc_run (ops : List EncOp) (s : Codec) (h : Inv s) (hrun : s.running = true) :
    Inv (ops.foldl EncOp.apply s) ∧ (ops.foldl EncOp.apply s).running = true ∧
    contents (ops.foldl EncOp.apply s) = ops.foldl liveStep (contents s) := by
  induction ops generalizing s with
  | nil => exact ⟨h, hrun, rfl⟩
  | cons op ops ih =>
    obtain ⟨h1, h2, h3⟩ := enc_step s op h hrun
    obtain ⟨k1, k2, k3⟩ := ih (EncOp.apply s op) h1 h2
    exact ⟨k1, k2, by rw [List.foldl_cons, k3, h3, List.foldl_cons]⟩

theorem popped_append (a b : List EncOp) (s : Codec) :
    popped s (a ++ b) = popped s a ++ popped (a.foldl EncOp.apply s) b := by
  induction a generalizing s with
  | nil => rfl
  | cons op a ih =>
    cases op with
    | write frame =>
      simp only [List.cons_append, popped, List.foldl_cons, EncOp.apply]
      exact ih _
    | pop frame blocking =>
      simp only [List.cons_append, popped, List.foldl_cons, EncOp.apply]
      split_ifs <;> simp [ih]

theorem popped_sublist (ops : List EncOp) (s : Codec) (h : Inv s) (hrun : s.running = true) :
    (popped s ops).Sublist (contents s ++ written ops) := by
  induction ops generalizing s with
  | nil => simp [popped]
  | cons op ops ih =>
    cases op with
    | write frame =>
      obtain ⟨h1, h2, h3⟩ := write_step s frame h
      have k := ih (encodeFunc_write s frame) h1 (by rw [h3, hrun])
      rw [h2] at k
      refine k.trans ?_
      simp only [specWrite, written, List.append_assoc, List.singleton_append]
      refine List.Sublist.append ?_ (List.Sublist.refl _)
      split_ifs
      · exact List.tail_sublist _
      · exact List.Sublist.refl _
    | pop frame blocking =>
      obtain ⟨h1, h2, h3, h4⟩ := pop_step s frame blocking h hrun
      have k := ih (codec_popFrame s frame blocking).1 h1 h2
      cases hq : contents s with
      | nil =>
        obtain ⟨j1, j2⟩ := h3 hq
        rw [j1] at k
        simpa [popped, written, j2] using k
      | cons x q =>
        obtain ⟨j1, j2⟩ := h4 x q hq
        rw [j1] at k
        simpa [popped, written, j2] using k

/-- C3. After a successful `codec_startEncode`, take any interleaving `ops` of
worker writes and `codec_popFrame` calls (failed and suspended calls included).
The frames delivered by the pops that return 0 form a subsequence of the frames
written.  The queue holds the live frames of the history: those written and
neither popped nor discarded by overwrite-oldest, oldest first.  A further write
delivers nothing; a further pop returns 0 exactly when a live frame exists and
then delivers the oldest one. -/
theorem pops_are_fifo (env : Env) (s0 s : Codec) (p : PathId) (residual : List WorkerOp)
    (ops : List EncOp)
    (hbuf : s0.dataBuffer.length = BUF_SIZE)
    (hstart : codec_startEncode env s0 p residual = (s, true)) :
    (popped s ops).Sublist (written ops) ∧
    contents (ops.foldl EncOp.apply s) = live ops ∧
    (∀ f, popped s (ops ++ [EncOp.write f]) = popped s ops) ∧
    (∀ buf blocking,
      popped s (ops ++ [EncOp.pop buf blocking]) = popped s ops ++ (live ops).head?.toList ∧
      ((codec_popFrame (ops.foldl EncOp.apply s) buf blocking).2.2 = Ret.code 0 ↔
        live ops ≠ []) ∧
      (∀ x, (live ops).head? = some x →
        (codec_popFrame (ops.foldl EncOp.apply s) buf blocking).2 = (x, Ret.code 0))) := by
  obtain ⟨hinv, hrun, -, hemp⟩ := start_inv WorkerFunc.encodeFunc env s0 s p residual hbuf hstart
  obtain ⟨k1, k2, k3⟩ := enc_run ops s hinv hrun
  rw [hemp] at k3
  have hsub := popped_sublist ops s hinv hrun
  rw [hemp, List.nil_append] at hsub
  refine ⟨hsub, k3, ?_, ?_⟩
  · intro f
    simp [popped_append, popped]
  · intro buf blocking
    obtain ⟨-, -, h3, h4⟩ := pop_step (ops.foldl EncOp.apply s) buf blocking k1 k2
    rw [k3] at h3 h4
    cases hq : live ops with
    | nil =>
      have j := (h3 hq).2
      refine ⟨?_, ?_, ?_⟩
      · simp [popped_append, popped, j]
      · simp [j]
      · intro x hx
        simp at hx
    | cons x q =>
      have j := (h4 x q hq).2
      refine ⟨?_, ?_, ?_⟩
      · simp [popped_append, popped, j]
      · simp [j]
      · intro y hy
        simp only [List.head?_cons, Option.some.injEq] at hy
        rw [← hy, j]

/-! ## Decode round trip -/

theorem noWait_refl (s : Codec) : NoWait s s := fun _ h _ => h

theorem noWait_trans (s t u : Codec) (h1 : NoWait s t) (h2 : NoWait t u) : NoWait s u :=
  fun e h hw => h1 e (h2 e h hw) hw

theorem pushAll_run (fs : List Frame) (s : Codec) (h : Inv s) (hrun : s.running = true)
    (hroom : (contents s).length + fs.length ≤ BUF_SIZE) :
    (pushAll s fs).2 = fs.map (fun _ => Ret.code 0) ∧
    Inv (pushAll s fs).1 ∧
    contents (pushAll s fs).1 = contents s ++ fs ∧
    (pushAll s fs).1.reqStop = s.reqStop ∧
    NoWait s (pushAll s fs).1 := by
  induction fs generalizing s with
  | nil => exact ⟨rfl, h, by simp [pushAll], rfl, noWait_refl s⟩
  | cons f fs ih =>
    have hlt : s.numElements < BUF_SIZE := by
      rw [← contents_length]
      simp only [List.length_cons] at hroom
      omega
    obtain ⟨h1, h2, h3, h4, h5, h6⟩ := push_step s f true h hrun hlt
    have hroom2 : (contents (codec_pushFrame s f true).1).length + fs.length ≤ BUF_SIZE := by
      rw [h3]
      simp only [List.length_append, List.length_cons, List.length_nil] at hroom ⊢
      omega
    obtain ⟨k1, k2, k3, k4, k5⟩ := ih (codec_pushFrame s f true).1 h2 h4 hroom2
    refine ⟨?_, k2, ?_, ?_, ?_⟩
    · simp only [pushAll, k1, h1, List.map_cons]
    · simp only [pushAll, k3, h3, List.append_assoc, List.singleton_append]
    · simp only [pushAll, k4, h5]
    · exact noWait_trans _ _ _ h6 k5

theorem iters_run {C2 : Type} (env : Env) (md3x0 : Bool)
    (codec2_decode : C2 → List Int → Frame → C2 × List Int) (oPath : PathId)
    (hopen : env.audioPath_getStatus oPath = env.PATH_OPEN)
    (items : List (Frame × List Int)) (s : Codec) (c2 : C2) (q : List Frame)
    (h : Inv s) (hstop : s.reqStop = false)
    (hq : contents s = items.map Prod.fst ++ q) :
    ∃ t c2', decodeFunc_iters env md3x0 codec2_decode oPath (items.map Prod.snd) s c2 =
        some (t, c2', decodeSeq codec2_decode (postDecode md3x0) c2 items) ∧
      Inv t ∧ t.reqStop = false ∧ contents t = q ∧ NoWait s t := by
  induction items generalizing s c2 with
  | nil => exact ⟨s, c2, rfl, h, hstop, by simpa using hq, noWait_refl s⟩
  | cons it items ih =>
    obtain ⟨f, idle⟩ := it
    obtain ⟨h1, h2, h3, -, h5⟩ := read_step s h
    obtain ⟨k1, k2⟩ := h5 f (items.map Prod.fst ++ q) (by simpa using hq)
    have k3 : (decodeFunc_read s).2.1 = f := by rw [k2]
    have k4 : (decodeFunc_read s).2.2 = true := by rw [k2]
    obtain ⟨t, c2', j1, j2, j3, j4, j5⟩ :=
      ih (decodeFunc_read s).1 (codec2_decode c2 idle f).1 h1 (by rw [h2, hstop]) k1
    refine ⟨t, c2', ?_, j2, j3, j4, noWait_trans _ _ _ h3 j5⟩
    simp only [List.map_cons, decodeFunc_iters, decodeFunc_iter, decodeFunc_body, hstop, hopen,
      k3, k4, j1, decodeSeq, ne_eq, not_true_eq_false, if_false, if_true]

theorem iter_silence {C2 : Type} (env : Env) (md3x0 : Bool)
    (codec2_decode : C2 → List Int → Frame → C2 × List Int) (oPath : PathId)
    (hopen : env.audioPath_getStatus oPath = env.PATH_OPEN)
    (s : Codec) (c2 : C2) (idle : List Int)
    (h : Inv s) (hstop : s.reqStop = false) (hq : contents s = []) :
    decodeFunc_iter env md3x0 codec2_decode oPath s c2 idle = some (s, c2, memset0 idle 160) := by
  obtain ⟨-, -, -, h4, -⟩ := read_step s h
  simp [decodeFunc_iter, decodeFunc_body, hstop, hopen, h4 hq]

theorem memset0_full (l : List Int) (n : Nat) (h : l.length = n) :
    memset0 l n = List.replicate n 0 := by
  subst h
  simp [memset0, List.eq_replicate_iff]

theorem decodeSeq_post {C2 : Type}
    (codec2_decode : C2 → List Int → Frame → C2 × List Int) (post : List Int → List Int)
    (c2 : C2) (items : List (Frame × List Int)) :
    decodeSeq codec2_decode post c2 items = (decodeSeq codec2_decode id c2 items).map post := by
  induction items generalizing c2 with
  | nil => rfl
  | cons it items ih =>
    obtain ⟨f, idle⟩ := it
    simp only [decodeSeq, List.map_cons, id_eq, ih]

/-- C10. In a running session with the queue empty and `reqStop` clear, push
`k ≤ BUF_SIZE` frames with `blocking = true`: every push returns 0.  With the
path open, the next `k` passes through the `decodeFunc` loop dequeue the frames
in push order.  In pass `i` the decoder is called on frame `i` and on the idle
buffer of that pass, in the state the pass before left it in, and the block it
writes (`decodeSeq codec2_decode id`) is what the pass hands to the output
stream: as it is on a build without `PLATFORM_MD3x0`, and through the rescale of
lines 350-353 (`postDecode`: each of the first 160 samples times 2, stored back
as `int16_t`) on a build with it.  Pass `k + 1` finds the queue empty, returns
with the shared state as it found it (so it made no wait and the queue stays
empty) and hands over 160 zero samples.  No wait on a condition variable was
made by the pushes or the passes. -/
theorem decode_round_trip {C2 : Type} (env : Env) (md3x0 : Bool)
    (codec2_decode : C2 → List Int → Frame → C2 × List Int) (oPath : PathId)
    (s : Codec) (c2 : C2) (items : List (Frame × List Int)) (last : List Int)
    (hinv : Inv s) (hrun : s.running = true) (hempty : s.numElements = 0)
    (hstop : s.reqStop = false)
    (hopen : env.audioPath_getStatus oPath = env.PATH_OPEN)
    (hk : items.length ≤ BUF_SIZE) (hlast : last.length = 160) :
    (pushAll s (items.map Prod.fst)).2 = items.map (fun _ => Ret.code 0) ∧
    ∃ t c2',
      decodeFunc_iters env md3x0 codec2_decode oPath (items.map Prod.snd)
          (pushAll s (items.map Prod.fst)).1 c2 =
        some (t, c2', (decodeSeq codec2_decode id c2 items).map (postDecode md3x0)) ∧
      (md3x0 = false →
        decodeFunc_iters env md3x0 codec2_decode oPath (items.map Prod.snd)
            (pushAll s (items.map Prod.fst)).1 c2 =
          some (t, c2', decodeSeq codec2_decode id c2 items)) ∧
      decodeFunc_iter env md3x0 codec2_decode oPath t c2' last =
        some (t, c2', List.replicate 160 0) ∧
      t.numElements = 0 ∧ NoWait s t := by
  have hc : contents s = [] := by simp [contents, hempty]
  obtain ⟨h1, h2, h3, h4, h5⟩ := pushAll_run (items.map Prod.fst) s hinv hrun
    (by simpa [hc] using hk)
  rw [hc, List.nil_append] at h3
  obtain ⟨t, c2', k1, k2, k3, k4, k5⟩ :=
    iters_run env md3x0 codec2_decode oPath hopen items (pushAll s (items.map Prod.fst)).1 c2 []
      h2 (by rw [h4, hstop]) (by simpa using h3)
  have hs := iter_silence env md3x0 codec2_decode oPath hopen t c2' last k2 k3 k4
  rw [memset0_full last 160 hlast] at hs
  have hplain : postDecode false = id := by
    funext audioBuf
    simp [postDecode]
  refine ⟨by rw [h1, List.map_map]; rfl, t, c2', ?_, ?_, hs, ?_, noWait_trans _ _ _ h5 k5⟩
  · rw [k1, decodeSeq_post]
  · intro hm
    rw [k1, hm, hplain]
  · rw [← contents_length, k4]
    rfl

/-! ## The worker's queue accesses -/

/-- C11. On a queue state satisfying the invariant, the write of `encodeFunc`
is a total step that records no wait and keeps the invariant.  On a full queue
`readPos` advances by one modulo `BUF_SIZE`, `numElements` stays `BUF_SIZE`, and
the queue holds the three frames after the oldest, in their order, followed by
`f`.  On a queue that is not full `f` is appended, `readPos` stays and
`numElements` grows by one.  The only pthread call made is a signal on
`wakeup_cond`, made exactly when the queue was empty before the write. -/
theorem producer_write_total (s : Codec) (f : Frame) (h : Inv s) :
    Inv (encodeFunc_write s f) ∧
    NoWait s (encodeFunc_write s f) ∧
    (s.numElements = BUF_SIZE →
      (encodeFunc_write s f).readPos = (s.readPos + 1) % BUF_SIZE ∧
      (encodeFunc_write s f).numElements = BUF_SIZE ∧
      (contents s).tail.length = 3 ∧
      contents (encodeFunc_write s f) = (contents s).tail ++ [f]) ∧
    (s.numElements < BUF_SIZE →
      (encodeFunc_write s f).readPos = s.readPos ∧
      (encodeFunc_write s f).numElements = s.numElements + 1 ∧
      contents (encodeFunc_write s f) = contents s ++ [f]) ∧
    (encodeFunc_write s f).trace =
      s.trace ++ (if s.numElements = 0 then [Effect.cond_signal CondVar.wakeup_cond] else []) := by
  obtain ⟨ap, ic, run, rs, r, w, n, buf, tr⟩ := s
  obtain ⟨hn, hr, hw, hb⟩ := h
  simp only [BUF_SIZE] at hn hr hw hb
  obtain ⟨a, b, c, d, rfl⟩ := buf4 buf hb
  subst hw
  interval_cases r <;> interval_cases n <;>
    simp [Inv, encodeFunc_write, contents, BUF_SIZE, u8, Codec.emit, List.range_succ, NoWait] <;>
    first
      | (intro e he _; exact he)
      | (rintro e (he | rfl) hw
         · exact he
         · simp [isWait] at hw)

/-- C12. On a queue state satisfying the invariant, the read of `decodeFunc`
records no wait.  On an empty queue it reports no data and hands back the state
as it was.  On a non-empty queue it returns the frame in slot `readPos`, the
oldest one, advances `readPos` by one modulo `BUF_SIZE`, decrements
`numElements` and leaves `writePos` and the slots alone.  The only pthread call
made is a signal on `wakeup_cond`, made exactly when `numElements` was
`BUF_SIZE` before the read. -/
theorem consumer_read_nonblocking (s : Codec) (h : Inv s) :
    Inv (decodeFunc_read s).1 ∧
    NoWait s (decodeFunc_read s).1 ∧
    (s.numElements = 0 → decodeFunc_read s = (s, 0, false)) ∧
    (s.numElements ≠ 0 →
      (decodeFunc_read s).2.2 = true ∧
      s.dataBuffer[s.readPos]? = some (decodeFunc_read s).2.1 ∧
      contents s = (decodeFunc_read s).2.1 :: contents (decodeFunc_read s).1 ∧
      (decodeFunc_read s).1.readPos = (s.readPos + 1) % BUF_SIZE ∧
      (decodeFunc_read s).1.numElements + 1 = s.numElements ∧
      (decodeFunc_read s).1.writePos = s.writePos ∧
      (decodeFunc_read s).1.dataBuffer = s.dataBuffer) ∧
    (decodeFunc_read s).1.trace =
      s.trace ++
        (if s.numElements = BUF_SIZE then [Effect.cond_signal CondVar.wakeup_cond] else []) := by
  obtain ⟨ap, ic, run, rs, r, w, n, buf, tr⟩ := s
  obtain ⟨hn, hr, hw, hb⟩ := h
  simp only [BUF_SIZE] at hn hr hw hb
  obtain ⟨a, b, c, d, rfl⟩ := buf4 buf hb
  subst hw
  interval_cases r <;> interval_cases n <;>
    simp [Inv, decodeFunc_read, contents, BUF_SIZE, u8, Codec.emit, List.range_succ, NoWait] <;>
    first
      | (intro e he _; exact he)
      | (rintro e (he | rfl) hw
         · exact he
         · simp [isWait] at hw)

/-- C13, the code at the failing input.  In a running session with the queue
empty, a push returns 0 and the one pthread call it makes is a signal on
`not_empty`; no signal on `wakeup_cond` is made.  A blocking pop on the same
state waits on `wakeup_cond`, and the worker's write on the same state signals
`wakeup_cond`. -/
theorem push_signals_not_empty :
    (codec_pushFrame Codec.decoding 7 true).2 = Ret.code 0 ∧
    (codec_pushFrame Codec.decoding 7 true).1.trace =
      Codec.decoding.trace ++ [Effect.cond_signal CondVar.not_empty] ∧
    Effect.cond_signal CondVar.wakeup_cond ∉ (codec_pushFrame Codec.decoding 7 true).1.trace ∧
    (codec_popFrame Codec.decoding 0 true).1.trace =
      Codec.decoding.trace ++ [Effect.cond_wait CondVar.wakeup_cond] ∧
    (encodeFunc_write Codec.decoding 7).trace =
      Codec.decoding.trace ++ [Effect.cond_signal CondVar.wakeup_cond] := by
  decide

/-! ## Index consistency -/

theorem inv_step (s : Codec) (op : QOp) (h : Inv s) : Inv (QOp.apply s op) := by
  obtain ⟨ap, ic, run, rs, r, w, n, buf, tr⟩ := s
  obtain ⟨hn, hr, hw, hb⟩ := h
  simp only [BUF_SIZE] at hn hr hw hb
  obtain ⟨a, b, c, d, rfl⟩ := buf4 buf hb
  subst hw
  cases op with
  | push frame blocking =>
    cases run <;> cases blocking <;> interval_cases r <;> interval_cases n <;>
      simp [Inv, QOp.apply, codec_pushFrame, BUF_SIZE, u8, Codec.emit]
  | pop frame blocking =>
    cases run <;> cases blocking <;> interval_cases r <;> interval_cases n <;>
      simp [Inv, QOp.apply, codec_popFrame, BUF_SIZE, u8, Codec.emit]
  | write frame => exact (write_step _ frame ⟨hn, hr, rfl, hb⟩).1
  | read => exact (read_step _ ⟨hn, hr, rfl, hb⟩).1

theorem inv_run (ops : List QOp) (s : Codec) (h : Inv s) : Inv (ops.foldl QOp.apply s) := by
  induction ops generalizing s with
  | nil => exact h
  | cons op ops ih => exact ih _ (inv_step s op h)

theorem inv_startThread (s : Codec) (func : WorkerFunc) (h : s.dataBuffer.length = BUF_SIZE) :
    Inv (startThread s func) := by
  simpa [Inv, startThread, Codec.emit, BUF_SIZE] using h

theorem full_write_slot (s : Codec) (f : Frame) (h : Inv s) (hfull : s.numElements = BUF_SIZE) :
    (encodeFunc_write s f).dataBuffer = s.dataBuffer.set s.readPos f ∧
    (contents s).head? = s.dataBuffer[s.readPos]? ∧
    contents (encodeFunc_write s f) = (contents s).tail ++ [f] := by
  obtain ⟨ap, ic, run, rs, r, w, n, buf, tr⟩ := s
  obtain ⟨hn, hr, hw, hb⟩ := h
  simp only [BUF_SIZE] at hn hr hw hb hfull
  obtain ⟨a, b, c, d, rfl⟩ := buf4 buf hb
  subst hw hfull
  interval_cases r <;>
    simp [encodeFunc_write, contents, BUF_SIZE, u8, Codec.emit, List.range_succ]

/-- C16. In every state reached from the state left by `startThread` through
external pushes and pops (failed and suspended calls included), worker writes
and worker reads, `writePos = (readPos + numElements) mod BUF_SIZE`; hence
`readPos = writePos` when the queue is empty or full.  On a full queue the
worker's write stores its frame in slot `readPos`, the slot of the oldest frame,
and the queue then holds the other three frames in their order followed by the
new one. -/
theorem index_consistency (s0 s : Codec) (func : WorkerFunc) (ops : List QOp) (f : Frame)
    (hbuf : s0.dataBuffer.length = BUF_SIZE)
    (hs : ops.foldl QOp.apply (startThread s0 func) = s) :
    s.writePos = (s.readPos + s.numElements) % BUF_SIZE ∧
    (s.numElements = 0 ∨ s.numElements = BUF_SIZE → s.readPos = s.writePos) ∧
    (s.numElements = BUF_SIZE →
      (encodeFunc_write s f).dataBuffer = s.dataBuffer.set s.readPos f ∧
      (contents s).head? = s.dataBuffer[s.readPos]? ∧
      contents (encodeFunc_write s f) = (contents s).tail ++ [f]) := by
  have hinv : Inv s := by
    rw [← hs]
    exact inv_run ops _ (inv_startThread s0 func hbuf)
  have hinv2 := hinv
  obtain ⟨hn, hr, hw, -⟩ := hinv2
  refine ⟨hw, ?_, fun hfull => full_write_slot s f hinv hfull⟩
  simp only [BUF_SIZE] at hn hr hw ⊢
  rintro (h0 | h4) <;> omega

/-! ## The worker functions -/

/-- C14. Let `audioStream_start` return a negative id.  Then `encodeFunc` and
`decodeFunc`, in whatever shared state `t` they find, clear `running`, leave
every other variable of the unit (queue included) as it is, and return at once:
the one call made is `audioStream_start`, so no codec instance is created and no
pass through the loop is made.  The start call that spawned the worker has
returned `true` with `running` set, and once the worker has returned
`codec_pushFrame` and `codec_popFrame` give `-EPERM`. -/
theorem worker_start_failure {C2 D F : Type} (b : Build)
    (dsp_dcRemoval : F → List Int → F × List Int)
    (codec2_encode : C2 → List Int → C2 × Frame)
    (codec2_decode : D → List Int → Frame → D × List Int)
    (c2 : C2) (d2 : D) (dcrState : F)
    (func : WorkerFunc) (env : Env) (s0 t : Codec) (p : PathId) (residual : List WorkerOp)
    (iStream : Int) (encPasses : List EncodePass) (decPasses : List DecodePass)
    (hopen : env.audioPath_getStatus p = env.PATH_OPEN)
    (hfree : s0.running = false ∨ env.audioPath_getStatus s0.audioPath ≠ env.PATH_OPEN)
    (hneg : iStream < 0) :
    (codec_start func env s0 p residual).2 = true ∧
    (codec_start func env s0 p residual).1.running = true ∧
    encodeFunc b dsp_dcRemoval codec2_encode iStream c2 dcrState p encPasses t =
      { state := { t with running := false },
        calls := [Call.audioStream_start p StreamDir.STREAM_INPUT],
        ended := WorkerEnd.startFailed } ∧
    decodeFunc b codec2_decode iStream d2 p decPasses t =
      { state := { t with running := false },
        calls := [Call.audioStream_start p StreamDir.STREAM_OUTPUT],
        ended := WorkerEnd.startFailed } ∧
    ∀ f buf blocking,
      codec_pushFrame { t with running := false } f blocking =
        ({ t with running := false }, Ret.code (-EPERM)) ∧
      codec_popFrame { t with running := false } buf blocking =
        ({ t with running := false }, buf, Ret.code (-EPERM)) := by
  rw [start_eq func env s0 p residual hopen hfree]
  refine ⟨rfl, rfl, ?_, ?_, ?_⟩
  · simp [encodeFunc, hneg]
  · simp [decodeFunc, hneg]
  · intro f buf blocking
    simp [codec_pushFrame, codec_popFrame]

set_option maxRecDepth 20000 in
/-- C15, as stated, fails.  Path 1 is open on entry to the loop body and is not
open once the block of 160 samples is delivered.  The pass does not leave the
loop: the block is conditioned and compressed, and the frame is written to the
queue, which then holds one frame. -/
theorem encode_path_check_counterexample :
    (passOracle 1 2 Instant.blockDelivered).audioPath_getStatus 1 ≠
      (passOracle 1 2 Instant.blockDelivered).PATH_OPEN ∧
    Codec.encoding.numElements = 0 ∧
    encodeFunc_pass Build.plain idFilter headEncoder 1
        { oracle := passOracle 1 2, audio := some micBlock } Codec.encoding () () =
      Except.ok (encodeFunc_write Codec.encoding 288, (), (),
        [Call.inputStream_getData, Call.dsp_dcRemoval, Call.codec2_encode]) ∧
    contents (encodeFunc_write Codec.encoding 288) = [288] := by
  decide

/-- C15, as amended.  In a pass through the encode loop made with `reqStop`
clear, the path is checked first, on entry to the loop body.  If it is not open
then, the loop is left: no block is fetched and nothing is written.  If it is
open then, the block is fetched; a `NULL` block leaves the state as it is, and a
delivered block is conditioned (unless `PLATFORM_LINUX`), compressed and written
to the queue.  The path status after the fetch plays no part: two passes that
agree on the oracle at loop entry and on the block give the same result. -/
theorem encode_path_check {C2 F : Type} (b : Build)
    (dsp_dcRemoval : F → List Int → F × List Int)
    (codec2_encode : C2 → List Int → C2 × Frame) (iPath : PathId)
    (p : EncodePass) (s : Codec) (c2 : C2) (dcrState : F)
    (hstop : s.reqStop = false) :
    ((p.oracle Instant.loopTop).audioPath_getStatus iPath ≠
        (p.oracle Instant.loopTop).PATH_OPEN →
      encodeFunc_pass b dsp_dcRemoval codec2_encode iPath p s c2 dcrState =
        Except.error WorkerEnd.pathClosed) ∧
    ((p.oracle Instant.loopTop).audioPath_getStatus iPath =
        (p.oracle Instant.loopTop).PATH_OPEN →
      (p.audio = none →
        encodeFunc_pass b dsp_dcRemoval codec2_encode iPath p s c2 dcrState =
          Except.ok (s, c2, dcrState, [Call.inputStream_getData])) ∧
      (∀ data, p.audio = some data →
        ∃ c2' dcrState' frame calls,
          encodeFunc_process b dsp_dcRemoval codec2_encode c2 dcrState data =
            (c2', dcrState', frame, calls) ∧
          Call.codec2_encode ∈ calls ∧
          encodeFunc_pass b dsp_dcRemoval codec2_encode iPath p s c2 dcrState =
            Except.ok (encodeFunc_write s frame, c2', dcrState',
              Call.inputStream_getData :: calls))) ∧
    (∀ q : EncodePass, q.oracle Instant.loopTop = p.oracle Instant.loopTop →
      q.audio = p.audio →
      encodeFunc_pass b dsp_dcRemoval codec2_encode iPath q s c2 dcrState =
        encodeFunc_pass b dsp_dcRemoval codec2_encode iPath p s c2 dcrState) := by
  refine ⟨?_, ?_, ?_⟩
  · intro h
    simp [encodeFunc_pass, hstop, h]
  · intro h
    refine ⟨?_, ?_⟩
    · intro ha
      simp [encodeFunc_pass, hstop, h, ha]
    · intro data ha
      refine ⟨(encodeFunc_process b dsp_dcRemoval codec2_encode c2 dcrState data).1,
        (encodeFunc_process b dsp_dcRemoval codec2_encode c2 dcrState data).2.1,
        (encodeFunc_process b dsp_dcRemoval codec2_encode c2 dcrState data).2.2.1,
        (encodeFunc_process b dsp_dcRemoval codec2_encode c2 dcrState data).2.2.2, rfl, ?_, ?_⟩
      · unfold encodeFunc_process
        split_ifs <;> simp
      · simp [encodeFunc_pass, hstop, h, ha]
  · intro q h1 h2
    simp [encodeFunc_pass, h1, h2]

theorem write_keeps_flags (s : Codec) (f : Frame) :
    (encodeFunc_write s f).running = s.running := by
  obtain ⟨ap, ic, run, rs, r, w, n, buf, tr⟩ := s
  simp only [encodeFunc_write, Codec.emit]
  split_ifs <;> rfl

theorem read_keeps_flags (s : Codec) : (decodeFunc_read s).1.running = s.running := by
  obtain ⟨ap, ic, run, rs, r, w, n, buf, tr⟩ := s
  simp only [decodeFunc_read, Codec.emit]
  split_ifs <;> rfl

theorem encodeFunc_loop_running {C2 F : Type} (b : Build)
    (dsp_dcRemoval : F → List Int → F × List Int)
    (codec2_encode : C2 → List Int → C2 × Frame) (iPath : PathId)
    (passes : List EncodePass) (s : Codec) (c2 : C2) (dcrState : F) :
    (encodeFunc_loop b dsp_dcRemoval codec2_encode iPath passes s c2 dcrState).1.running =
      s.running := by
  induction passes generalizing s c2 dcrState with
  | nil => rfl
  | cons p rest ih =>
    simp only [encodeFunc_loop]
    cases hp : encodeFunc_pass b dsp_dcRemoval codec2_encode iPath p s c2 dcrState with
    | error e => rfl
    | ok r =>
      simp only [ih]
      unfold encodeFunc_pass at hp
      split_ifs at hp
      cases ha : p.audio with
      | none =>
        simp only [ha, Except.ok.injEq] at hp
        rw [← hp]
      | some data =>
        simp only [ha, Except.ok.injEq] at hp
        rw [← hp]
        exact write_keeps_flags s _

theorem decodeFunc_loop_running {D : Type} (b : Build)
    (codec2_decode : D → List Int → Frame → D × List Int) (oPath : PathId)
    (passes : List DecodePass) (s : Codec) (d2 : D) :
    (decodeFunc_loop b codec2_decode oPath passes s d2).1.running = s.running := by
  induction passes generalizing s d2 with
  | nil => rfl
  | cons p rest ih =>
    simp only [decodeFunc_loop]
    cases hp : decodeFunc_iter p.env b.PLATFORM_MD3x0 codec2_decode oPath s d2 p.idle with
    | none => rfl
    | some r =>
      simp only [ih]
      unfold decodeFunc_iter at hp
      split_ifs at hp
      simp only [Option.some.injEq] at hp
      rw [← hp]
      simp only [decodeFunc_body]
      split_ifs <;> exact read_keeps_flags s

theorem encodeFunc_running {C2 F : Type} (b : Build)
    (dsp_dcRemoval : F → List Int → F × List Int)
    (codec2_encode : C2 → List Int → C2 × Frame)
    (iStream : Int) (c2 : C2) (dcrState : F) (iPath : PathId)
    (passes : List EncodePass) (s : Codec)
    (h : (encodeFunc b dsp_dcRemoval codec2_encode iStream c2 dcrState iPath passes s).ended ≠
      WorkerEnd.startFailed) :
    (encodeFunc b dsp_dcRemoval codec2_encode iStream c2 dcrState iPath passes s).state.running =
      s.running := by
  unfold encodeFunc at h ⊢
  by_cases hneg : iStream < 0
  · simp [hneg] at h
  · simp only [hneg, if_false]
    split_ifs <;>
      exact encodeFunc_loop_running b dsp_dcRemoval codec2_encode iPath passes s c2 dcrState

theorem decodeFunc_running {D : Type} (b : Build)
    (codec2_decode : D → List Int → Frame → D × List Int)
    (oStream : Int) (d2 : D) (oPath : PathId)
    (passes : List DecodePass) (s : Codec)
    (h : (decodeFunc b codec2_decode oStream d2 oPath passes s).ended ≠ WorkerEnd.startFailed) :
    (decodeFunc b codec2_decode oStream d2 oPath passes s).state.running = s.running := by
  unfold decodeFunc at h ⊢
  by_cases hneg : oStream < 0
  · simp [hneg] at h
  · simp only [hneg, if_false]
    split_ifs <;> exact decodeFunc_loop_running b codec2_decode oPath passes s d2

theorem encodeFunc_loop_initCnt {C2 F : Type} (b : Build)
    (dsp_dcRemoval : F → List Int → F × List Int)
    (codec2_encode : C2 → List Int → C2 × Frame) (iPath : PathId)
    (passes : List EncodePass) (s : Codec) (c2 : C2) (dcrState : F) :
    (encodeFunc_loop b dsp_dcRemoval codec2_encode iPath passes s c2 dcrState).1.initCnt =
      s.initCnt := by
  induction passes generalizing s c2 dcrState with
  | nil => rfl
  | cons p rest ih =>
    simp only [encodeFunc_loop]
    cases hp : encodeFunc_pass b dsp_dcRemoval codec2_encode iPath p s c2 dcrState with
    | error e => rfl
    | ok r =>
      simp only [ih]
      unfold encodeFunc_pass at hp
      split_ifs at hp
      cases ha : p.audio with
      | none =>
        simp only [ha, Except.ok.injEq] at hp
        rw [← hp]
      | some data =>
        simp only [ha, Except.ok.injEq] at hp
        rw [← hp]
        exact (workerOp_frame s (WorkerOp.write _)).2.1

theorem decodeFunc_loop_initCnt {D : Type} (b : Build)
    (codec2_decode : D → List Int → Frame → D × List Int) (oPath : PathId)
    (passes : List DecodePass) (s : Codec) (d2 : D) :
    (decodeFunc_loop b codec2_decode oPath passes s d2).1.initCnt = s.initCnt := by
  induction passes generalizing s d2 with
  | nil => rfl
  | cons p rest ih =>
    simp only [decodeFunc_loop]
    cases hp : decodeFunc_iter p.env b.PLATFORM_MD3x0 codec2_decode oPath s d2 p.idle with
    | none => rfl
    | some r =>
      simp only [ih]
      unfold decodeFunc_iter at hp
      split_ifs at hp
      simp only [Option.some.injEq] at hp
      rw [← hp]
      simp only [decodeFunc_body]
      split_ifs <;> exact (workerOp_frame s WorkerOp.read).2.1

theorem encodeFunc_initCnt {C2 F : Type} (b : Build)
    (dsp_dcRemoval : F → List Int → F × List Int)
    (codec2_encode : C2 → List Int → C2 × Frame)
    (iStream : Int) (c2 : C2) (dcrState : F) (iPath : PathId)
    (passes : List EncodePass) (s : Codec) :
    (encodeFunc b dsp_dcRemoval codec2_encode iStream c2 dcrState iPath passes s).state.initCnt =
      s.initCnt := by
  unfold encodeFunc
  by_cases hneg : iStream < 0
  · simp [hneg]
  · simp only [hneg, if_false]
    split_ifs <;>
      exact encodeFunc_loop_initCnt b dsp_dcRemoval codec2_encode iPath passes s c2 dcrState

theorem decodeFunc_initCnt {D : Type} (b : Build)
    (codec2_decode : D → List Int → Frame → D × List Int)
    (oStream : Int) (d2 : D) (oPath : PathId)
    (passes : List DecodePass) (s : Codec) :
    (decodeFunc b codec2_decode oStream d2 oPath passes s).state.initCnt = s.initCnt := by
  unfold decodeFunc
  by_cases hneg : oStream < 0
  · simp [hneg]
  · simp only [hneg, if_false]
    split_ifs <;> exact decodeFunc_loop_initCnt b codec2_decode oPath passes s d2

theorem clear_sites (t : Codec) (op : ApiOp) (hrun : t.running = true)
    (hclr : (ApiOp.apply t op).running = false) :
    (∃ residual, op = ApiOp.stop t.audioPath residual ∧
      ApiOp.apply t op = stopThread t residual) ∨
    (∃ residual, op = ApiOp.terminate residual ∧ u8 (t.initCnt + 255) = 0 ∧
      ApiOp.apply t op =
        ((stopThread { t with initCnt := 0 } residual).emit Effect.mutex_destroy).emit
          (Effect.cond_destroy CondVar.wakeup_cond)) ∨
    (op = ApiOp.init ∧ t.initCnt = 0) := by
  cases op with
  | init =>
    right; right
    refine ⟨rfl, ?_⟩
    by_contra h0
    have hpos : t.initCnt > 0 := Nat.pos_of_ne_zero h0
    simp [ApiOp.apply, codec_init, hpos, hrun] at hclr
  | terminate residual =>
    right; left
    by_cases h0 : u8 (t.initCnt + 255) = 0
    · exact ⟨residual, rfl, h0, by simp [ApiOp.apply, codec_terminate, h0, hrun]⟩
    · have hpos : u8 (t.initCnt + 255) > 0 := Nat.pos_of_ne_zero h0
      simp [ApiOp.apply, codec_terminate, hpos, hrun] at hclr
  | startEncode env path residual =>
    simp only [ApiOp.apply, codec_startEncode] at hclr
    split_ifs at hclr <;> simp_all [startThread, Codec.emit]
  | startDecode env path residual =>
    simp only [ApiOp.apply, codec_startDecode] at hclr
    split_ifs at hclr <;> simp_all [startThread, Codec.emit]
  | stop path residual =>
    left
    by_cases hp : t.audioPath = path
    · subst hp
      exact ⟨residual, rfl, by simp [ApiOp.apply, codec_stop, hrun]⟩
    · simp [ApiOp.apply, codec_stop, hrun, hp] at hclr
  | pushFrame frame blocking =>
    simp only [ApiOp.apply, codec_pushFrame, Codec.emit] at hclr
    split_ifs at hclr <;> simp_all
  | popFrame frame blocking =>
    simp only [ApiOp.apply, codec_popFrame, Codec.emit] at hclr
    split_ifs at hclr <;> simp_all

theorem queue_calls_permitted (t : Codec) (f buf : Frame) (blocking : Bool)
    (hrun : t.running = true) :
    (codec_pushFrame t f blocking).2 ≠ Ret.code (-EPERM) ∧
    (codec_popFrame t buf blocking).2.2 ≠ Ret.code (-EPERM) := by
  constructor
  · unfold codec_pushFrame
    split_ifs <;> simp_all [EPERM, EAGAIN]
  · unfold codec_popFrame
    split_ifs <;> simp_all [EPERM, EAGAIN]

set_option maxRecDepth 20000 in
/-- C17, as stated, fails when the module is not initialised (`initCnt = 0`)
while a session is active.  First run: 256 calls of `codec_init` wrap the 8-bit
counter to 0; an encode session is started on the open path 1; the worker
acquires its stream and leaves the loop because path 1 is no longer open,
`running` still set; the next `codec_init` leaves `running` clear, and no join
is in the trace.  Second run: the same with the session started before any
`codec_init`. -/
theorem running_cleared_by_init_counterexample :
    (initN 256 Codec.boot).initCnt = 0 ∧
    (codec_startEncode (Env.only 1) (initN 256 Codec.boot) 1 []).2 = true ∧
    (encodeFunc Build.plain idFilter headEncoder 0 () () 1
        [{ oracle := passOracle 2 2, audio := none }]
        (codec_startEncode (Env.only 1) (initN 256 Codec.boot) 1 []).1).ended =
      WorkerEnd.pathClosed ∧
    Codec.orphaned.running = true ∧
    (codec_init Codec.orphaned).running = false ∧
    Effect.join ∉ (codec_init Codec.orphaned).trace ∧
    (codec_startEncode (Env.only 1) Codec.boot 1 []).2 = true ∧
    (encodeFunc Build.plain idFilter headEncoder 0 () () 1
        [{ oracle := passOracle 2 2, audio := none }]
        (codec_startEncode (Env.only 1) Codec.boot 1 []).1).ended = WorkerEnd.pathClosed ∧
    Codec.orphanedCold.running = true ∧
    (codec_init Codec.orphanedCold).running = false ∧
    Effect.join ∉ (codec_init Codec.orphanedCold).trace := by
  decide

/-- C17, as amended.  Let the module be initialised (`1 ≤ initCnt`) and let a
worker run (`encodeFunc` or `decodeFunc`) that was started with `running` set
end because its path is not open.  Then `running` is still set in the state it
leaves and `initCnt` is as it was, so `codec_pushFrame` and `codec_popFrame` do
not return `-EPERM` there.  A public call made in that state leaves `running`
clear only through `stopThread`: `codec_stop` on the bound path, or the
`codec_terminate` that brings the counter to 0.  A start on an open path while
the bound path is not open goes through `stopThread` and sets `running` again. -/
theorem worker_exit_keeps_running {C2 D F : Type} (b : Build)
    (dsp_dcRemoval : F → List Int → F × List Int)
    (codec2_encode : C2 → List Int → C2 × Frame)
    (codec2_decode : D → List Int → Frame → D × List Int)
    (iStream : Int) (c2 : C2) (d2 : D) (dcrState : F) (path : PathId)
    (encPasses : List EncodePass) (decPasses : List DecodePass)
    (s : Codec) (run : WorkerRun) (op : ApiOp)
    (hfrom :
      run = encodeFunc b dsp_dcRemoval codec2_encode iStream c2 dcrState path encPasses s ∨
      run = decodeFunc b codec2_decode iStream d2 path decPasses s)
    (hinit : 1 ≤ s.initCnt)
    (hrun : s.running = true) (hend : run.ended = WorkerEnd.pathClosed) :
    run.state.running = true ∧
    run.state.initCnt = s.initCnt ∧
    (∀ f buf blocking,
      (codec_pushFrame run.state f blocking).2 ≠ Ret.code (-EPERM) ∧
      (codec_popFrame run.state buf blocking).2.2 ≠ Ret.code (-EPERM)) ∧
    ((ApiOp.apply run.state op).running = false →
      (∃ residual, op = ApiOp.stop run.state.audioPath residual ∧
        ApiOp.apply run.state op = stopThread run.state residual) ∨
      (∃ residual, op = ApiOp.terminate residual ∧ u8 (run.state.initCnt + 255) = 0 ∧
        ApiOp.apply run.state op =
          ((stopThread { run.state with initCnt := 0 } residual).emit Effect.mutex_destroy).emit
            (Effect.cond_destroy CondVar.wakeup_cond))) ∧
    (∀ func env p residual,
      env.audioPath_getStatus p = env.PATH_OPEN →
      env.audioPath_getStatus run.state.audioPath ≠ env.PATH_OPEN →
      codec_start func env run.state p residual =
        (startThread { stopThread run.state residual with running := true, audioPath := p } func,
          true)) := by
  have hkeep : run.state.running = true := by
    rcases hfrom with h | h
    · rw [h] at hend ⊢
      rw [encodeFunc_running b dsp_dcRemoval codec2_encode iStream c2 dcrState path encPasses s
        (by rw [hend]; decide), hrun]
    · rw [h] at hend ⊢
      rw [decodeFunc_running b codec2_decode iStream d2 path decPasses s
        (by rw [hend]; decide), hrun]
  have hcnt : run.state.initCnt = s.initCnt := by
    rcases hfrom with h | h
    · rw [h]
      exact encodeFunc_initCnt b dsp_dcRemoval codec2_encode iStream c2 dcrState path encPasses s
    · rw [h]
      exact decodeFunc_initCnt b codec2_decode iStream d2 path decPasses s
  refine ⟨hkeep, hcnt,
    fun f buf blocking => queue_calls_permitted run.state f buf blocking hkeep, ?_, ?_⟩
  · intro hclr
    rcases clear_sites run.state op hkeep hclr with h | h | ⟨-, h0⟩
    · exact Or.inl h
    · exact Or.inr h
    · rw [hcnt] at h0
      omega
  · intro func env p residual hopen hstale
    rw [start_eq func env run.state p residual hopen (Or.inr hstale)]
    simp [hkeep]

/-! ## Instances on concrete states -/

theorem start_invalid_path_witness :
    (Env.only 1).audioPath_getStatus 2 ≠ (Env.only 1).PATH_OPEN ∧
    codec_startEncode (Env.only 1) Codec.encoding 2 [WorkerOp.write 5] = (Codec.encoding, false) ∧
    codec_startDecode (Env.only 1) Codec.encoding 2 [WorkerOp.write 5] = (Codec.encoding, false) :=
  ⟨by decide, start_invalid_path (Env.only 1) Codec.encoding 2 [WorkerOp.write 5] (by decide)⟩

theorem start_busy_witness :
    codec_startEncode (Env.only 1) Codec.encoding 1 [WorkerOp.write 5] = (Codec.encoding, false) ∧
    codec_startDecode (Env.only 1) Codec.encoding 1 [WorkerOp.write 5] = (Codec.encoding, false) :=
  start_busy (Env.only 1) Codec.encoding 1 [WorkerOp.write 5] (by decide) (by decide) (by decide)

theorem stop_noop_witness :
    codec_stop Codec.encoding 2 [WorkerOp.write 5] = Codec.encoding :=
  stop_noop Codec.encoding 2 [WorkerOp.write 5] (Or.inr (by decide))

theorem overwrite_oldest_witness :
    (popAll ([10, 20, 30, 40, 50, 60].foldl encodeFunc_write Codec.encoding)
        [(0, false), (0, true), (0, false), (0, true)]).2 =
      [(30, Ret.code 0), (40, Ret.code 0), (50, Ret.code 0), (60, Ret.code 0)] :=
  (overwrite_oldest (Env.only 1) (codec_init Codec.boot) Codec.encoding 1 []
    [10, 20, 30, 40, 50, 60] [(0, false), (0, true), (0, false), (0, true)]
    (by decide) (by decide) (by decide) (by decide)).2.2.1

theorem pops_are_fifo_witness :
    (popped Codec.encoding
        [EncOp.write 1, EncOp.write 2, EncOp.pop 0 true, EncOp.write 3, EncOp.write 4,
         EncOp.write 5, EncOp.write 6, EncOp.pop 0 false]).Sublist
      (written
        [EncOp.write 1, EncOp.write 2, EncOp.pop 0 true, EncOp.write 3, EncOp.write 4,
         EncOp.write 5, EncOp.write 6, EncOp.pop 0 false]) ∧
    (codec_popFrame
        ([EncOp.write 1, EncOp.write 2, EncOp.pop 0 true, EncOp.write 3, EncOp.write 4,
          EncOp.write 5, EncOp.write 6, EncOp.pop 0 false].foldl EncOp.apply Codec.encoding)
        0 false).2 = (4, Ret.code 0) :=
  ⟨(pops_are_fifo (Env.only 1) (codec_init Codec.boot) Codec.encoding 1 []
      [EncOp.write 1, EncOp.write 2, EncOp.pop 0 true, EncOp.write 3, EncOp.write 4,
       EncOp.write 5, EncOp.write 6, EncOp.pop 0 false] (by decide) (by decide)).1,
   ((pops_are_fifo (Env.only 1) (codec_init Codec.boot) Codec.encoding 1 []
      [EncOp.write 1, EncOp.write 2, EncOp.pop 0 true, EncOp.write 3, EncOp.write 4,
       EncOp.write 5, EncOp.write 6, EncOp.pop 0 false] (by decide) (by decide)).2.2.2
      0 false).2.2 4 (by decide)⟩

theorem start_succeeds_witness :
    (codec_start WorkerFunc.decodeFunc (Env.only 2) Codec.encoding 2 [WorkerOp.write 5]).2 = true ∧
    (codec_start WorkerFunc.decodeFunc (Env.only 2) Codec.encoding 2
        [WorkerOp.write 5]).1.numElements = 0 ∧
    spawned (codec_start WorkerFunc.decodeFunc (Env.only 2) Codec.encoding 2
        [WorkerOp.write 5]).1.trace =
      spawned Codec.encoding.trace ++ [(WorkerFunc.decodeFunc, 2)] :=
  ⟨(start_succeeds WorkerFunc.decodeFunc (Env.only 2) Codec.encoding 2 [WorkerOp.write 5]
      (by decide) (Or.inr (by decide))).1,
   (start_succeeds WorkerFunc.decodeFunc (Env.only 2) Codec.encoding 2 [WorkerOp.write 5]
      (by decide) (Or.inr (by decide))).2.2.2.1,
   (start_succeeds WorkerFunc.decodeFunc (Env.only 2) Codec.encoding 2 [WorkerOp.write 5]
      (by decide) (Or.inr (by decide))).2.2.2.2.2.2.2.1⟩

theorem queue_call_errors_witness :
    codec_pushFrame (codec_init Codec.boot) 7 true = (codec_init Codec.boot, Ret.code (-EPERM)) ∧
    codec_popFrame Codec.encoding 9 false = (Codec.encoding, 9, Ret.code (-EAGAIN)) ∧
    codec_pushFrame ([1, 2, 3, 4].foldl encodeFunc_write Codec.encoding) 7 false =
      ([1, 2, 3, 4].foldl encodeFunc_write Codec.encoding, Ret.code (-EAGAIN)) :=
  ⟨((queue_call_errors (codec_init Codec.boot) 7 9 true (by decide)).1 (by decide)).1,
   (queue_call_errors Codec.encoding 7 9 false (by decide)).2.2.2.1 (by decide) (by decide),
   (queue_call_errors ([1, 2, 3, 4].foldl encodeFunc_write Codec.encoding) 7 9 false
      (by decide)).2.1 (by decide) (by decide)⟩

set_option maxRecDepth 20000 in
theorem decode_round_trip_witness :
    (∃ t c2',
      decodeFunc_iters (Env.only 1) false flatDecoder 1
          ([(1, idleBlock), (2, idleBlock), (3, idleBlock)].map Prod.snd)
          (pushAll Codec.decoding
            ([(1, idleBlock), (2, idleBlock), (3, idleBlock)].map Prod.fst)).1 () =
        some (t, c2',
          (decodeSeq flatDecoder id ()
            [(1, idleBlock), (2, idleBlock), (3, idleBlock)]).map (postDecode false)) ∧
      (false = false →
        decodeFunc_iters (Env.only 1) false flatDecoder 1
            ([(1, idleBlock), (2, idleBlock), (3, idleBlock)].map Prod.snd)
            (pushAll Codec.decoding
              ([(1, idleBlock), (2, idleBlock), (3, idleBlock)].map Prod.fst)).1 () =
          some (t, c2',
            decodeSeq flatDecoder id () [(1, idleBlock), (2, idleBlock), (3, idleBlock)])) ∧
      decodeFunc_iter (Env.only 1) false flatDecoder 1 t c2' idleBlock =
        some (t, c2', List.replicate 160 0) ∧
      t.numElements = 0 ∧ NoWait Codec.decoding t) ∧
    (∃ t c2',
      decodeFunc_iters (Env.only 1) true flatDecoder 1
          ([(20000, idleBlock), (2, idleBlock), (3, idleBlock)].map Prod.snd)
          (pushAll Codec.decoding
            ([(20000, idleBlock), (2, idleBlock), (3, idleBlock)].map Prod.fst)).1 () =
        some (t, c2',
          (decodeSeq flatDecoder id ()
            [(20000, idleBlock), (2, idleBlock), (3, idleBlock)]).map (postDecode true)) ∧
      (true = false →
        decodeFunc_iters (Env.only 1) true flatDecoder 1
            ([(20000, idleBlock), (2, idleBlock), (3, idleBlock)].map Prod.snd)
            (pushAll Codec.decoding
              ([(20000, idleBlock), (2, idleBlock), (3, idleBlock)].map Prod.fst)).1 () =
          some (t, c2',
            decodeSeq flatDecoder id ()
              [(20000, idleBlock), (2, idleBlock), (3, idleBlock)])) ∧
      decodeFunc_iter (Env.only 1) true flatDecoder 1 t c2' idleBlock =
        some (t, c2', List.replicate 160 0) ∧
      t.numElements = 0 ∧ NoWait Codec.decoding t) :=
  ⟨(decode_round_trip (Env.only 1) false flatDecoder 1 Codec.decoding ()
      [(1, idleBlock), (2, idleBlock), (3, idleBlock)] idleBlock
      (by decide) (by decide) (by decide) (by decide) (by decide) (by decide) (by decide)).2,
   (decode_round_trip (Env.only 1) true flatDecoder 1 Codec.decoding ()
      [(20000, idleBlock), (2, idleBlock), (3, idleBlock)] idleBlock
      (by decide) (by decide) (by decide) (by decide) (by decide) (by decide) (by decide)).2⟩

theorem producer_write_total_witness :
    contents (encodeFunc_write ([1, 2, 3, 4].foldl encodeFunc_write Codec.encoding) 5) =
      (contents ([1, 2, 3, 4].foldl encodeFunc_write Codec.encoding)).tail ++ [5] ∧
    (encodeFunc_write Codec.encoding 5).trace =
      Codec.encoding.trace ++
        (if Codec.encoding.numElements = 0 then [Effect.cond_signal CondVar.wakeup_cond]
         else []) :=
  ⟨((producer_write_total ([1, 2, 3, 4].foldl encodeFunc_write Codec.encoding) 5
      (by decide)).2.2.1 (by decide)).2.2.2,
   (producer_write_total Codec.encoding 5 (by decide)).2.2.2.2⟩

theorem consumer_read_nonblocking_witness :
    decodeFunc_read Codec.decoding = (Codec.decoding, 0, false) ∧
    (decodeFunc_read (pushAll Codec.decoding [1, 2]).1).1.numElements + 1 =
      (pushAll Codec.decoding [1, 2]).1.numElements :=
  ⟨(consumer_read_nonblocking Codec.decoding (by decide)).2.2.1 (by decide),
   ((consumer_read_nonblocking (pushAll Codec.decoding [1, 2]).1 (by decide)).2.2.2.1
      (by decide)).2.2.2.2.1⟩

theorem worker_start_failure_witness :
    encodeFunc Build.plain idFilter headEncoder (-1) () () 1
        [{ oracle := passOracle 1 1, audio := some micBlock }] Codec.encoding =
      { state := { Codec.encoding with running := false },
        calls := [Call.audioStream_start 1 StreamDir.STREAM_INPUT],
        ended := WorkerEnd.startFailed } ∧
    decodeFunc Build.plain flatDecoder (-1) () 1
        [{ env := Env.only 1, idle := idleBlock }] Codec.encoding =
      { state := { Codec.encoding with running := false },
        calls := [Call.audioStream_start 1 StreamDir.STREAM_OUTPUT],
        ended := WorkerEnd.startFailed } :=
  ⟨(worker_start_failure Build.plain idFilter headEncoder flatDecoder () () ()
      WorkerFunc.encodeFunc (Env.only 1) (codec_init Codec.boot) Codec.encoding 1 [] (-1)
      [{ oracle := passOracle 1 1, audio := some micBlock }]
      [{ env := Env.only 1, idle := idleBlock }]
      (by decide) (Or.inl (by decide)) (by decide)).2.2.1,
   (worker_start_failure Build.plain idFilter headEncoder flatDecoder () () ()
      WorkerFunc.encodeFunc (Env.only 1) (codec_init Codec.boot) Codec.encoding 1 [] (-1)
      [{ oracle := passOracle 1 1, audio := some micBlock }]
      [{ env := Env.only 1, idle := idleBlock }]
      (by decide) (Or.inl (by decide)) (by decide)).2.2.2.1⟩

theorem encode_path_check_witness :
    encodeFunc_pass Build.plain idFilter headEncoder 1
        { oracle := passOracle 2 1, audio := some micBlock } Codec.encoding () () =
      Except.error WorkerEnd.pathClosed :=
  (encode_path_check Build.plain idFilter headEncoder 1
    { oracle := passOracle 2 1, audio := some micBlock } Codec.encoding () ()
    (by decide)).1 (by decide)

theorem index_consistency_witness :
    ([QOp.write 1, QOp.write 2, QOp.write 3, QOp.write 4, QOp.write 5, QOp.pop 0 false,
        QOp.push 6 false].foldl QOp.apply
        (startThread { codec_init Codec.boot with running := true } WorkerFunc.encodeFunc)).writePos =
      (([QOp.write 1, QOp.write 2, QOp.write 3, QOp.write 4, QOp.write 5, QOp.pop 0 false,
          QOp.push 6 false].foldl QOp.apply
          (startThread { codec_init Codec.boot with running := true }
            WorkerFunc.encodeFunc)).readPos +
        ([QOp.write 1, QOp.write 2, QOp.write 3, QOp.write 4, QOp.write 5, QOp.pop 0 false,
          QOp.push 6 false].foldl QOp.apply
          (startThread { codec_init Codec.boot with running := true }
            WorkerFunc.encodeFunc)).numElements) % BUF_SIZE :=
  (index_consistency { codec_init Codec.boot with running := true } _ WorkerFunc.encodeFunc
    [QOp.write 1, QOp.write 2, QOp.write 3, QOp.write 4, QOp.write 5, QOp.pop 0 false,
      QOp.push 6 false] 0 (by decide) rfl).1

theorem worker_exit_keeps_running_witness :
    (encodeFunc Build.plain idFilter headEncoder 0 () () 1
        [{ oracle := passOracle 1 1, audio := some micBlock },
         { oracle := passOracle 2 2, audio := some micBlock }] Codec.encoding).state.running =
      true :=
  (worker_exit_keeps_running Build.plain idFilter headEncoder flatDecoder 0 () () () 1
    [{ oracle := passOracle 1 1, audio := some micBlock },
     { oracle := passOracle 2 2, audio := some micBlock }]
    [] Codec.encoding _ ApiOp.init (Or.inl rfl) (by decide) (by decide) (by decide)).1

end AudioCodec
